import Mathlib

/-!
Verification development for the bbb-scoreboard incremental ingestion
coordinator: the latest-wins merge/upsert engine (`src/pbp/upsert.py`),
the refresh cycle and per-game freeze state machine (`src/refresh.py`),
and the scoring event builder (`src/scoring/engine.py`).

Rows, state rows, metrics records and events are embedded as Lean
structures; dataframe operations become list operations (pandas
`sort_values(kind="mergesort")` is embedded as the stable sort — proved
below to coincide with the stable `List.mergeSort` on the comparison the
code uses — and `drop_duplicates(keep="last")` keeps the last row per
key).
-/

namespace BBB

open scoped List

/-! ## Merge/Upsert engine (`src/pbp/upsert.py::upsert_latest_wins`)

A cumulative `ScoringPlayRecord` row.  The merge logic inspects only the
key columns `game_id`, `play_id` and the `refreshed_at` stamp; every other
column (flags, participant ids, context) is carried opaquely in `payload`,
so "field-for-field" claims are claims about whole rows. -/
structure Row (α : Type) where
  game_id : String
  play_id : Int
  refreshed_at : Int
  payload : α
deriving DecidableEq, Repr

/-- The `(game_id, play_id)` key of a row. -/
def rkey {α : Type} (r : Row α) : String × Int := (r.game_id, r.play_id)

/-- Boolean test: does `r` have key `k`? -/
def keyIs {α : Type} (k : String × Int) (r : Row α) : Bool :=
  decide (rkey r = k)

/-- The comparison used by
`combined.sort_values(["game_id", "play_id", "refreshed_at"], kind="mergesort")`:
ascending lexicographic order on the three columns. -/
def rowLE {α : Type} (a b : Row α) : Bool :=
  if a.game_id = b.game_id then
    if a.play_id = b.play_id then a.refreshed_at ≤ b.refreshed_at
    else a.play_id < b.play_id
  else a.game_id < b.game_id

/-- `rowLE` as a `Prop`-valued relation. -/
def RowLe {α : Type} (a b : Row α) : Prop := rowLE a b = true

instance {α : Type} : DecidableRel (RowLe (α := α)) := fun a b => by
  unfold RowLe; infer_instance

/-- `combined.sort_values(["game_id", "play_id", "refreshed_at"], kind="mergesort")`:
a stable sort by the lexicographic comparison.  The output of a stable sort
is uniquely determined by the comparison and the input order (it is the
sorted permutation in which rows that compare equal keep their relative
order), so it is embedded as the stable `List.insertionSort`; stability,
sortedness and permutation lemmas below are the characterising facts. -/
def sortRows {α : Type} (l : List (Row α)) : List (Row α) :=
  l.insertionSort RowLe

/-- `rowLE` refined by original position — the order under which stable
sorting is plain sorting (`List.enumLE`).  Used only to prove that
`sortRows` coincides with `List.mergeSort` by `rowLE`. -/
def EnumRowLe {α : Type} (a b : Nat × Row α) : Prop :=
  List.enumLE rowLE a b = true

instance {α : Type} : DecidableRel (EnumRowLe (α := α)) := fun a b => by
  unfold EnumRowLe; infer_instance

/-- `combined.drop_duplicates(subset=["game_id", "play_id"], keep="last")`:
a row is kept iff no later row carries the same key; kept rows keep their
relative order. -/
def dropDupKeepLast {α : Type} : List (Row α) → List (Row α)
  | [] => []
  | x :: xs =>
      if xs.any (fun y => keyIs (rkey x) y) then dropDupKeepLast xs
      else x :: dropDupKeepLast xs

/-- `upsert_latest_wins(old, new_scoring)` from `src/pbp/upsert.py`:
if `old` is `None` or empty the new batch is returned as-is (a copy);
otherwise the schemas are aligned (a no-op for typed rows), the frames are
concatenated (`old` first), stably sorted ascending by
`(game_id, play_id, refreshed_at)`, and only the last row per
`(game_id, play_id)` is kept. -/
def upsert_latest_wins {α : Type} (old : Option (List (Row α)))
    (new_scoring : List (Row α)) : List (Row α) :=
  match old with
  | none => new_scoring
  | some o =>
      if o.isEmpty then new_scoring
      else dropDupKeepLast (sortRows (o ++ new_scoring))

/-- Specification-side winner: scan the rows carrying one key in arrival
order and keep the row with the greatest `refreshed_at`, a tie going to
the later row.  `upsert_latest_wins` is proved to realise this rule. -/
def pickLatest {α : Type} : List (Row α) → Option (Row α)
  | [] => none
  | r :: rest =>
      match pickLatest rest with
      | none => some r
      | some w => if r.refreshed_at ≤ w.refreshed_at then some w else some r

/-- The winning row for key `k` among the rows of `l`, in "latest wins"
semantics: greatest `refreshed_at`, ties broken towards later arrival. -/
def winner {α : Type} (k : String × Int) (l : List (Row α)) : Option (Row α) :=
  pickLatest (l.filter (keyIs k))

/-- A row list has at most one row per `(game_id, play_id)` key. -/
def UniqueKeys {α : Type} (l : List (Row α)) : Prop :=
  l.Pairwise (fun a b => rkey a ≠ rkey b)

instance {α : Type} (l : List (Row α)) : Decidable (UniqueKeys l) := by
  unfold UniqueKeys; infer_instance

/-! ## Refresh cycle and freeze state machine (`src/refresh.py`)

One row of the per-game resource state store (`_read_state` schema).
Timestamps are ISO-8601 strings in the CSV; the embedding carries them as
`Option Int` epoch seconds — the value `_parse_utc_iso` recovers — with
`none` for a missing or unparsable stamp.  `no_new_pbp_streak` is nullable
in the CSV, read back through `_to_int_or_none(...) or 0`. -/
structure GameState where
  season : Int
  game_id : String
  first_seen_at : Option Int
  last_attempt_at : Option Int
  last_success_at : Option Int
  last_max_play_id : Option Int
  last_new_pbp_at : Option Int
  no_new_pbp_streak : Option Int
  is_frozen : Bool
  freeze_reason : String
deriving DecidableEq, Repr

/-- One per-game metrics record: the fields of `LiveGameMetrics`
(`src/pbp/live_pbp.py`) that the state machine reads. -/
structure MetricRow where
  game_id : String
  max_play_id : Option Int
  is_final : Bool
  status : String
deriving DecidableEq, Repr

/-- `RefreshResult` from `src/refresh.py`. -/
structure RefreshResult where
  ok : Bool
  message : String
  games_requested : Nat
  games_refreshed : Nat
  games_frozen : Nat
  eligible_games : Nat
  changed : Bool
  new_rows : Nat
deriving DecidableEq, Repr

/-- The fetcher output consumed by the cycle: whether any live PBP row was
loaded (`pbp_df` non-empty), and the metrics frame — its column list plus
one parsed record per row.  The fetcher performs network I/O, so the cycle
is embedded as a function of its output (the §4.3 collaborator boundary). -/
structure FetchResult where
  anyLoaded : Bool
  metricsCols : List String
  metricsRows : List MetricRow
deriving DecidableEq, Repr

/-- The durable stores the cycle can touch: the cumulative scoring-play
store (abstract contents `σ`, written only through `refresh_pbp`), the
resource state store, and the metrics_out file. -/
structure Stores (σ : Type) where
  cumulative : σ
  stateStore : List GameState
  metricsOut : Option (List MetricRow)
deriving DecidableEq, Repr

/-- The observable outcome of one `refresh_playoff_games` call: the
returned `RefreshResult`, the stores after the call, and whether the lock
was acquired/released, a fetch was issued, and `refresh_pbp` (the merge
into the cumulative store) ran. -/
structure CycleOutcome (σ : Type) where
  result : RefreshResult
  stores : Stores σ
  lockTaken : Bool
  lockReleased : Bool
  fetched : Bool
  ranScoringRefresh : Bool
deriving DecidableEq, Repr

/-- Python `str.strip()`: drop leading and trailing whitespace.  (The
core `String.trim` is extensionally the same but is defined by
well-founded recursion on byte positions, which the kernel cannot
evaluate; this character-list form reduces.) -/
def strTrim (s : String) : String :=
  ⟨((s.data.dropWhile Char.isWhitespace).reverse.dropWhile
      Char.isWhitespace).reverse⟩

/-- Python `str.lower()` for the ASCII statuses the code compares. -/
def strLower (s : String) : String :=
  ⟨s.data.map Char.toLower⟩

/-- `_should_freeze_inactive`: `False` when the stamp is absent/unparsable,
else true iff `now - last_ts >= inactive_seconds`. -/
def _should_freeze_inactive (last_new_pbp_at : Option Int) (nowTime : Int)
    (inactive_seconds : Int) : Bool :=
  match last_new_pbp_at with
  | none => false
  | some t => inactive_seconds ≤ nowTime - t

/-- `_select_games_to_refresh`: with an empty state store every requested
id is eligible; otherwise drop ids whose state row has `is_frozen`. -/
def _select_games_to_refresh (playoff_game_ids : List String)
    (state_df : List GameState) : List String :=
  if state_df.isEmpty then playoff_game_ids
  else
    let frozen := (state_df.filter (·.is_frozen)).map (·.game_id)
    playoff_game_ids.filter (fun gid => !(frozen.contains gid))

/-- `status in {"not_loaded_yet", "not_loaded", "unavailable"}` after
`strip().lower()`. -/
def statusNotLoaded (status : String) : Bool :=
  let s := strLower (strTrim status)
  s == "not_loaded_yet" || s == "not_loaded" || s == "unavailable"

/-- The fresh state row appended for a game id seen for the first time
(`refresh.py` lines 332-344). -/
def freshRow (season : Int) (now : Int) (gid : String)
    (max_play_id : Option Int) : GameState :=
  { season := season
    game_id := gid
    first_seen_at := some now
    last_attempt_at := some now
    last_success_at := some now
    last_max_play_id := max_play_id
    last_new_pbp_at := if max_play_id.isSome then some now else none
    no_new_pbp_streak := some 0
    is_frozen := false
    freeze_reason := "" }

/-- The in-place update of one state row for one metrics record
(`refresh.py` lines 351-391): stamp the attempt, detect advance, update
the no-advance streak (skipping not-loaded games), then run the freeze
policy (skipped for not-loaded games and already-frozen rows).  Returns
the updated row and whether it froze in this cycle. -/
def updateExisting (season now inactive_seconds : Int) (row : GameState)
    (m : MetricRow) (not_loaded : Bool) : GameState × Bool :=
  let row1 := { row with
    season := season
    last_attempt_at := some now
    last_success_at := some now }
  let prev_max := row1.last_max_play_id
  let streak := row1.no_new_pbp_streak.getD 0
  let advanced :=
    match m.max_play_id, prev_max with
    | some _, none => true
    | some nm, some pm => decide (pm < nm)
    | none, _ => false
  let row2 :=
    if advanced then
      { row1 with
        last_max_play_id := m.max_play_id
        last_new_pbp_at := some now
        no_new_pbp_streak := some 0 }
    else if not_loaded then row1
    else { row1 with no_new_pbp_streak := some (streak + 1) }
  if not_loaded then (row2, false)
  else if !row2.is_frozen then
    if m.is_final then
      ({ row2 with is_frozen := true, freeze_reason := "final" }, true)
    else
      let streak2 := row2.no_new_pbp_streak.getD 0
      if 2 ≤ streak2 ∧
          _should_freeze_inactive row2.last_new_pbp_at now inactive_seconds
            = true then
        ({ row2 with is_frozen := true, freeze_reason := "inactive_timeout" },
          true)
      else (row2, false)
  else (row2, false)

/-- Processing of one metrics record against the (possibly absent) state
row for its game id: a missing row is created first (and left untouched if
the game is not loaded yet), then the common update path runs. -/
def processOne (season now inactive_seconds : Int) (statusInCols : Bool) :
    Option GameState → MetricRow → GameState × Bool
  | none, m =>
      let not_loaded := statusNotLoaded (if statusInCols then m.status else "")
      let fresh := freshRow season now m.game_id m.max_play_id
      if not_loaded then (fresh, false)
      else updateExisting season now inactive_seconds fresh m not_loaded
  | some row, m =>
      let not_loaded := statusNotLoaded (if statusInCols then m.status else "")
      updateExisting season now inactive_seconds row m not_loaded

/-- Index of the last state row carrying a game id — the value the Python
`idx` dict (built by overwriting enumeration) maps the id to. -/
def lastIdxOf : List GameState → String → Option Nat
  | [], _ => none
  | r :: rest, gid =>
      match lastIdxOf rest gid with
      | some i => some (i + 1)
      | none => if r.game_id == gid then some 0 else none

/-- The state row the cycle reads/writes for a game id. -/
def lookupLast (st : List GameState) (gid : String) : Option GameState :=
  (lastIdxOf st gid).bind (fun i => st[i]?)

/-- One iteration of the metrics loop (`refresh.py` lines 322-391) over
the state table and the frozen-now counter. -/
def stepRow (season now inactive_seconds : Int) (statusInCols : Bool)
    (acc : List GameState × Nat) (m : MetricRow) : List GameState × Nat :=
  let (st, k) := acc
  match lastIdxOf st m.game_id with
  | none =>
      let (row1, froze) :=
        processOne season now inactive_seconds statusInCols none m
      (st ++ [row1], k + if froze then 1 else 0)
  | some i =>
      match st[i]? with
      | none => (st, k)
      | some row =>
          let (row1, froze) :=
            processOne season now inactive_seconds statusInCols (some row) m
          (st.set i row1, k + if froze then 1 else 0)

/-- `required = {"game_id", "max_play_id", "is_final", "refreshed_at"}`,
listed in the `sorted(...)` order the code reports. -/
def requiredMetricsCols : List String :=
  ["game_id", "is_final", "max_play_id", "refreshed_at"]

/-- The tail of the cycle after the optional scoring refresh: metrics
schema validation, the advance check, the state-machine loop, and the
state-store write (`refresh.py` lines 279-415). -/
def finishCycle {σ : Type} (season now inactive_seconds : Int)
    (games_requested eligible_games : Nat) (fetch : FetchResult)
    (prevMax : String → Option Int) (stores : Stores σ) (ran : Bool) :
    CycleOutcome σ :=
  let missing :=
    requiredMetricsCols.filter (fun c => !(fetch.metricsCols.contains c))
  if missing.isEmpty = false then
    { result :=
        { ok := false
          message := "metrics_out missing columns: " ++
            String.intercalate ", " missing
          games_requested := games_requested
          games_refreshed := eligible_games
          games_frozen := 0
          eligible_games := eligible_games
          changed := false
          new_rows := 0 }
      stores := stores
      lockTaken := true, lockReleased := true
      fetched := true, ranScoringRefresh := ran }
  else
    let changed := fetch.metricsRows.any (fun m =>
      match m.max_play_id with
      | none => false
      | some nm =>
          match prevMax m.game_id with
          | none => true
          | some pm => decide (pm < nm))
    let statusInCols := fetch.metricsCols.contains "status"
    let folded := fetch.metricsRows.foldl
      (stepRow season now inactive_seconds statusInCols)
      (stores.stateStore, 0)
    let all_not_loaded := statusInCols &&
      !fetch.metricsRows.isEmpty &&
      fetch.metricsRows.all (fun m => strLower m.status == "not_loaded_yet")
    let msg :=
      if all_not_loaded && !changed then
        "Up to date - no play-by-play available yet."
      else "Refresh complete"
    { result :=
        { ok := true
          message := msg
          games_requested := games_requested
          games_refreshed := eligible_games
          games_frozen := folded.2
          eligible_games := eligible_games
          changed := changed
          new_rows := 0 }
      stores := { stores with stateStore := folded.1 }
      lockTaken := true, lockReleased := true
      fetched := true, ranScoringRefresh := ran }

/-- `refresh_playoff_games` (`src/refresh.py` lines 162-415).  External
effects are parameters: `fetch` is the output of
`fetch_live_pbp_for_game_ids`/`metrics_to_dataframe`, and
`runScoringRefresh` is the `refresh_pbp` call on the cumulative store —
it returns the store it leaves behind plus `some message` when it raises.
The single `now`/wall-clock instant stands for both the cycle stamp and
the `time.time()` reads of the freeze check. -/
def refresh_playoff_games {σ : Type} (season : Int)
    (playoff_game_ids : List String) (stores : Stores σ)
    (fetch : FetchResult) (runScoringRefresh : σ → σ × Option String)
    (now inactive_seconds : Int) : CycleOutcome σ :=
  let ids := (playoff_game_ids.map strTrim).filter (fun s => !s.isEmpty)
  let games_requested := ids.length
  if games_requested = 0 then
    { result :=
        { ok := true
          message := "No playoff game_ids provided."
          games_requested := 0
          games_refreshed := 0
          games_frozen := 0
          eligible_games := 0
          changed := false
          new_rows := 0 }
      stores := stores
      lockTaken := false, lockReleased := false
      fetched := false, ranScoringRefresh := false }
  else
    -- `with FileLock(lock_path)`: acquired here, released on every path out
    let state_df := stores.stateStore
    let prevMax : String → Option Int := fun gid =>
      match lookupLast state_df gid with
      | none => none
      | some r => r.last_max_play_id
    let to_refresh := _select_games_to_refresh ids state_df
    let eligible_games := to_refresh.length
    if eligible_games = 0 then
      { result :=
          { ok := true
            message := "Nothing to refresh - scoreboard reflects final scores"
            games_requested := games_requested
            games_refreshed := 0
            games_frozen := (state_df.filter (·.is_frozen)).length
            eligible_games := 0
            changed := false
            new_rows := 0 }
        stores := stores
        lockTaken := true, lockReleased := true
        fetched := false, ranScoringRefresh := false }
    else
      let stores1 := { stores with metricsOut := some fetch.metricsRows }
      if fetch.anyLoaded then
        match runScoringRefresh stores1.cumulative with
        | (cum1, some err) =>
            { result :=
                { ok := false
                  message := "Refresh failed: " ++ err
                  games_requested := games_requested
                  games_refreshed := 0
                  games_frozen := 0
                  eligible_games := eligible_games
                  changed := false
                  new_rows := 0 }
              stores := { stores1 with cumulative := cum1 }
              lockTaken := true, lockReleased := true
              fetched := true, ranScoringRefresh := true }
        | (cum1, none) =>
            finishCycle season now inactive_seconds games_requested
              eligible_games fetch prevMax { stores1 with cumulative := cum1 }
              true
      else
        finishCycle season now inactive_seconds games_requested
          eligible_games fetch prevMax stores1 false

/-- The streak stored in a (possibly absent) state row, through the
`_to_int_or_none(...) or 0` read the code performs. -/
def streakOf : Option GameState → Int
  | none => 0
  | some r => r.no_new_pbp_streak.getD 0

/-- The freeze flag of a (possibly absent) state row. -/
def frozenOf : Option GameState → Bool
  | none => false
  | some r => r.is_frozen

/-- The freeze reason of a (possibly absent) state row. -/
def reasonOf : Option GameState → String
  | none => ""
  | some r => r.freeze_reason

/-! ## Scoring event builder (`src/scoring/engine.py::_build_events`)

One already-scoped scoring-play row, with the flag and id columns the
event builder reads.  Participant ids are the `clean_id` strings —
the empty string stands for an absent id, matching the
`fillna("").astype(str).ne("")` presence tests. -/
structure Play where
  posteam : String
  defteam : String
  play_type : String
  passer_player_id : String
  receiver_player_id : String
  rusher_player_id : String
  kicker_player_id : String
  is_fg : Bool
  is_xp : Bool
  is_safety : Bool
  is_td_off : Bool
  is_td_def : Bool
  pass_touchdown : Bool
  rush_touchdown : Bool
  is_2pt : Bool
  is_def_two_pt_col : Bool
  defensive_two_point_conv : Int
deriving DecidableEq, Repr

/-- One emitted scoring event (the per-row output of an `add` call,
before the roster join resolves `position`). -/
structure ScoringEvent where
  team : String
  player_id : String
  pts : Int
  pos_hint : Option String
  reason : String
deriving DecidableEq, Repr

/-- `ScoreRules` with its dataclass defaults. -/
structure ScoreRules where
  passing_td : Int := 4
  rushing_td : Int := 6
  receiving_td : Int := 6
  fg_made : Int := 3
  xp_made : Int := 1
  passing_2pt : Int := 1
  rushing_2pt : Int := 2
  receiving_2pt : Int := 2
  safety : Int := 2
  def_2pt_return : Int := 2
  def_td : Int := 6
deriving DecidableEq, Repr

/-- The default rule set (`rules: ScoreRules = ScoreRules()`). -/
def defaultRules : ScoreRules := {}

/-- Does `pat` lead the character list? -/
def charsLead : List Char → List Char → Bool
  | [], _ => true
  | _ :: _, [] => false
  | c :: cs, h :: hs => c == h && charsLead cs hs

/-- Does the character list contain `pat` as a contiguous run? -/
def charsHave (pat : List Char) : List Char → Bool
  | [] => charsLead pat []
  | h :: hs => charsLead pat (h :: hs) || charsHave pat hs

/-- `play_type.str.contains(pat)` for the literal patterns the engine
uses ("pass", "run", "rush"). -/
def strContains (s pat : String) : Bool :=
  charsHave pat.data s.data

/-- Python `str.upper()` for the ASCII position strings. -/
def strUpper (s : String) : String :=
  ⟨s.data.map Char.toUpper⟩

/-- `normalize_position` from `src/scoring/io.py`: missing/falsy input is
the catch-all "OTH"; "FB" aliases to "RB"; core buckets and "K" pass
through; everything else is "OTH". -/
def normalize_position (pos : Option String) : String :=
  match pos with
  | none => "OTH"
  | some s =>
      if s = "" then "OTH"
      else
        let p := strUpper (strTrim s)
        let p := if p = "FB" then "RB" else p
        if p = "QB" ∨ p = "RB" ∨ p = "WR" ∨ p = "TE" then p
        else if p = "K" then "K" else "OTH"

/-- The events `_build_events` emits for one play: each `add(mask, …)`
call contributes its row when the play satisfies the mask, in the order
of the `add` calls (`engine.py` lines 126-155). -/
def buildEventsForPlay (rules : ScoreRules) (p : Play) : List ScoringEvent :=
  let is_def_two_pt := p.is_def_two_pt_col || (p.defensive_two_point_conv == 1)
  let is_2pt_off := p.is_2pt && !is_def_two_pt
  let has_passer := !(p.passer_player_id == "")
  let has_receiver := !(p.receiver_player_id == "")
  let has_rusher := !(p.rusher_player_id == "")
  let passish := has_receiver || strContains p.play_type "pass"
  (if p.is_fg then
    [⟨p.posteam, p.kicker_player_id, rules.fg_made, some "K", "FG made"⟩]
   else []) ++
  (if p.is_xp then
    [⟨p.posteam, p.kicker_player_id, rules.xp_made, some "K", "XP made"⟩]
   else []) ++
  (if p.is_td_off && p.pass_touchdown && has_passer then
    [⟨p.posteam, p.passer_player_id, rules.passing_td, some "QB",
      "Pass TD (QB)"⟩]
   else []) ++
  (if p.is_td_off && p.pass_touchdown && has_receiver then
    [⟨p.posteam, p.receiver_player_id, rules.receiving_td, none,
      "Pass TD (receiver)"⟩]
   else []) ++
  (if p.is_td_off && p.rush_touchdown && has_rusher then
    [⟨p.posteam, p.rusher_player_id, rules.rushing_td, none, "Rush TD"⟩]
   else []) ++
  (if p.is_td_def then
    [⟨p.defteam, "", rules.def_td, some "OTH", "Defensive TD"⟩]
   else []) ++
  (if p.is_safety then
    [⟨p.defteam, "", rules.safety, some "OTH", "Safety"⟩]
   else []) ++
  (if is_def_two_pt then
    [⟨p.defteam, "", rules.def_2pt_return, some "OTH", "Defensive 2pt"⟩]
   else []) ++
  (if is_2pt_off && passish && has_passer then
    [⟨p.posteam, p.passer_player_id, rules.passing_2pt, some "QB",
      "2pt pass (QB)"⟩]
   else []) ++
  (if is_2pt_off && passish && has_receiver then
    [⟨p.posteam, p.receiver_player_id, rules.receiving_2pt, none,
      "2pt pass (receiver)"⟩]
   else []) ++
  (if is_2pt_off && !passish &&
      (has_rusher || strContains p.play_type "run"
        || strContains p.play_type "rush") then
    [⟨p.posteam, p.rusher_player_id, rules.rushing_2pt, none, "2pt rush"⟩]
   else [])

/-- The roster join plus
`ev["position"] = ev["pos_hint"].fillna(ev["position_bucket"]).map(normalize_position)`:
a fixed `pos_hint` always wins; otherwise the roster bucket (itself
normalised on load) is used; a missing roster row falls through to the
catch-all. -/
def resolvePosition (lookup : String → Option String) (e : ScoringEvent) :
    String :=
  let bucket := (lookup e.player_id).map (fun b => normalize_position (some b))
  normalize_position
    (match e.pos_hint with
     | some h => some h
     | none => bucket)


/-! ### Order facts about the sort comparison -/

theorem rowLE_iff {α : Type} (a b : Row α) :
    rowLE a b = true ↔
      a.game_id < b.game_id ∨
      (a.game_id = b.game_id ∧ a.play_id < b.play_id) ∨
      (a.game_id = b.game_id ∧ a.play_id = b.play_id ∧
        a.refreshed_at ≤ b.refreshed_at) := by
  unfold rowLE
  split_ifs with h1 h2 <;> simp_all

theorem rowLE_trans {α : Type} {a b c : Row α} (hab : rowLE a b = true)
    (hbc : rowLE b c = true) : rowLE a c = true := by
  rw [rowLE_iff] at *
  rcases hab with h | ⟨e, h⟩ | ⟨e, e', h⟩ <;>
    rcases hbc with h2 | ⟨e2, h2⟩ | ⟨e2, e2', h2⟩ <;>
    simp_all <;>
    first
      | omega
      | (left; exact lt_trans h h2)

theorem rowLE_total {α : Type} (a b : Row α) :
    rowLE a b = true ∨ rowLE b a = true := by
  rw [rowLE_iff, rowLE_iff]
  rcases lt_trichotomy a.game_id b.game_id with h | h | h
  · exact Or.inl (Or.inl h)
  · rcases lt_trichotomy a.play_id b.play_id with h' | h' | h'
    · exact Or.inl (Or.inr (Or.inl ⟨h, h'⟩))
    · rcases le_total a.refreshed_at b.refreshed_at with h'' | h''
      · exact Or.inl (Or.inr (Or.inr ⟨h, h', h''⟩))
      · exact Or.inr (Or.inr (Or.inr ⟨h.symm, h'.symm, h''⟩))
    · exact Or.inr (Or.inr (Or.inl ⟨h.symm, h'⟩))
  · exact Or.inr (Or.inl h)

instance {α : Type} : IsTrans (Row α) (RowLe (α := α)) :=
  ⟨fun _ _ _ => rowLE_trans⟩

instance {α : Type} : IsTotal (Row α) (RowLe (α := α)) :=
  ⟨fun a b => rowLE_total a b⟩

/-- Two rows with the same key compare by `refreshed_at` alone. -/
theorem rowLE_of_same_key {α : Type} {a b : Row α} (h : rkey a = rkey b) :
    rowLE a b = true ↔ a.refreshed_at ≤ b.refreshed_at := by
  unfold rkey at h
  rw [rowLE_iff]
  simp_all [Prod.ext_iff]

/-! ### `sortRows` is the stable merge sort

`sort_values(kind="mergesort")` performs a stable sort.  The embedding
uses the structurally recursive `List.insertionSort` (so that concrete
counterexamples evaluate inside the kernel); the theorems below check it
produces exactly the output of the stable `List.mergeSort` under the
code`s comparison, so nothing is lost in the translation. -/

instance {α : Type} : IsTrans (Nat × Row α) (EnumRowLe (α := α)) :=
  ⟨fun a b c hab hbc =>
    @List.enumLE_trans (Row α) rowLE (fun _ _ _ u v => rowLE_trans u v)
      a b c hab hbc⟩

instance {α : Type} : IsTotal (Nat × Row α) (EnumRowLe (α := α)) :=
  ⟨fun a b => by
    have h := @List.enumLE_total (Row α) rowLE
      (fun x y => by rcases rowLE_total x y with h | h <;> simp [h]) a b
    rcases Bool.or_eq_true _ _ |>.mp h with h | h
    · exact Or.inl h
    · exact Or.inr h⟩

theorem enumRowLe_iff_of_lt {α : Type} {i j : Nat} (x y : Row α)
    (hij : i < j) : EnumRowLe (i, x) (j, y) ↔ RowLe x y := by
  unfold EnumRowLe RowLe List.enumLE
  dsimp only
  split_ifs with h1 h2
  · simp [h1, Nat.le_of_lt hij]
  · simp [h1]
  · simp [h1]

theorem map_snd_orderedInsert {α : Type} (i : Nat) (x : Row α) :
    ∀ (l : List (Nat × Row α)), (∀ p ∈ l, i < p.1) →
      (List.orderedInsert (EnumRowLe (α := α)) (i, x) l).map Prod.snd
        = List.orderedInsert (RowLe (α := α)) x (l.map Prod.snd) := by
  intro l
  induction l with
  | nil => intro _; rfl
  | cons p t ih =>
      intro hall
      obtain ⟨j, y⟩ := p
      have hij : i < j := hall (j, y) (List.mem_cons_self _ _)
      by_cases hr : RowLe x y
      · have he : EnumRowLe (i, x) (j, y) := (enumRowLe_iff_of_lt x y hij).mpr hr
        simp [List.orderedInsert, he, hr]
      · have he : ¬ EnumRowLe (i, x) (j, y) := fun h =>
          hr ((enumRowLe_iff_of_lt x y hij).mp h)
        simp [List.orderedInsert, he, hr,
          ih (fun q hq => hall q (List.mem_cons_of_mem _ hq))]

theorem map_snd_insertionSort_enumFrom {α : Type} :
    ∀ (l : List (Row α)) (n : Nat),
      ((List.enumFrom n l).insertionSort (EnumRowLe (α := α))).map Prod.snd
        = l.insertionSort (RowLe (α := α)) := by
  intro l
  induction l with
  | nil => intro _; rfl
  | cons x t ih =>
      intro n
      have hall : ∀ p ∈ (List.enumFrom (n + 1) t).insertionSort
          (EnumRowLe (α := α)), n < p.1 := by
        intro p hp
        obtain ⟨a, b⟩ := p
        have hp' : (a, b) ∈ List.enumFrom (n + 1) t :=
          (List.mem_insertionSort _).mp hp
        have := (List.mem_enumFrom hp').1
        omega
      show (List.orderedInsert (EnumRowLe (α := α)) (n, x)
          ((List.enumFrom (n + 1) t).insertionSort
            (EnumRowLe (α := α)))).map Prod.snd
        = List.orderedInsert (RowLe (α := α)) x
            (t.insertionSort (RowLe (α := α)))
      rw [map_snd_orderedInsert n x _ hall, ih (n + 1)]

theorem mergeSort_enum_eq_insertionSort {α : Type} (l : List (Row α)) :
    List.mergeSort l.enum (List.enumLE rowLE)
      = List.insertionSort (EnumRowLe (α := α)) l.enum := by
  apply @List.Perm.eq_of_sorted _ (EnumRowLe (α := α))
  · intro a b ha hb hab hba
    rw [List.mem_mergeSort] at ha
    rw [List.mem_insertionSort] at hb
    unfold EnumRowLe List.enumLE at hab hba
    have hfst : a.1 = b.1 := by
      by_cases h1 : rowLE a.2 b.2 = true <;>
        by_cases h2 : rowLE b.2 a.2 = true <;>
        simp [h1, h2] at hab hba <;> omega
    have hnd : (l.enum.map Prod.fst).Nodup := by
      rw [List.enum_map_fst]
      exact List.nodup_range _
    exact List.inj_on_of_nodup_map hnd ha hb hfst
  · exact List.sorted_mergeSort
      (@List.enumLE_trans (Row α) rowLE (fun _ _ _ u v => rowLE_trans u v))
      (@List.enumLE_total (Row α) rowLE
        (fun x y => by rcases rowLE_total x y with h | h <;> simp [h]))
      l.enum
  · exact List.sorted_insertionSort (EnumRowLe (α := α)) l.enum
  · exact (List.mergeSort_perm l.enum _).trans
      (List.perm_insertionSort (EnumRowLe (α := α)) l.enum).symm

/-- The embedding`s stable sort is exactly `List.mergeSort` under the
code`s three-column comparison. -/
theorem sortRows_eq_mergeSort {α : Type} (l : List (Row α)) :
    sortRows l = List.mergeSort l rowLE := by
  rw [← List.mergeSort_enum, mergeSort_enum_eq_insertionSort]
  rw [List.enum_eq_enumFrom]
  exact (map_snd_insertionSort_enumFrom l 0).symm

/-! ### `pickLatest`: the latest-wins selection rule -/

theorem pickLatest_cons_none {α : Type} {rest : List (Row α)} {r : Row α}
    (hr : pickLatest rest = none) : pickLatest (r :: rest) = some r := by
  simp [pickLatest, hr]

theorem pickLatest_cons_some {α : Type} {rest : List (Row α)} {r w' : Row α}
    (hr : pickLatest rest = some w') :
    pickLatest (r :: rest) =
      if r.refreshed_at ≤ w'.refreshed_at then some w' else some r := by
  simp [pickLatest, hr]

theorem pickLatest_eq_none {α : Type} {l : List (Row α)} :
    pickLatest l = none ↔ l = [] := by
  cases l with
  | nil => simp [pickLatest]
  | cons r rest =>
      cases hr : pickLatest rest with
      | none => simp [pickLatest_cons_none hr]
      | some w' =>
          rw [pickLatest_cons_some hr]
          split <;> simp

theorem pickLatest_mem {α : Type} :
    ∀ (l : List (Row α)) (w : Row α), pickLatest l = some w → w ∈ l := by
  intro l
  induction l with
  | nil => intro w h; simp [pickLatest] at h
  | cons r rest ih =>
      intro w h
      cases hr : pickLatest rest with
      | none =>
          rw [pickLatest_cons_none hr, Option.some.injEq] at h
          subst h
          exact List.mem_cons_self _ _
      | some w' =>
          rw [pickLatest_cons_some hr] at h
          split at h <;> rw [Option.some.injEq] at h <;> subst h
          · exact List.mem_cons_of_mem _ (ih _ hr)
          · exact List.mem_cons_self _ _

theorem pickLatest_le {α : Type} :
    ∀ (l : List (Row α)) (w : Row α), pickLatest l = some w →
      ∀ r ∈ l, r.refreshed_at ≤ w.refreshed_at := by
  intro l
  induction l with
  | nil => intro w _ x hx; simp at hx
  | cons r rest ih =>
      intro w h x hx
      cases hr : pickLatest rest with
      | none =>
          rw [pickLatest_cons_none hr, Option.some.injEq] at h
          subst h
          rcases List.mem_cons.mp hx with rfl | hx'
          · exact le_refl _
          · simp [pickLatest_eq_none.mp hr] at hx'
      | some w' =>
          rw [pickLatest_cons_some hr] at h
          rcases List.mem_cons.mp hx with rfl | hx'
          · split at h <;> rw [Option.some.injEq] at h <;> subst h
            · assumption
            · exact le_refl _
          · have hxa := ih _ hr x hx'
            split at h <;> rw [Option.some.injEq] at h <;> subst h
            · exact hxa
            · rename_i hcond
              simp only [not_le] at hcond
              omega

/-! ### `getLast?`/`filter` helpers -/

theorem getLast?_cons_of_ne_nil {β : Type} {l : List β} (x : β) (h : l ≠ []) :
    (x :: l).getLast? = l.getLast? := by
  cases l with
  | nil => exact absurd rfl h
  | cons y t => simp [List.getLast?_eq_getLast _ (l := y :: t)]

/-- The last element of a list survives `filter` whenever it passes the
predicate, and it is still last afterwards. -/
theorem getLast?_filter_of_last_pos {β : Type} :
    ∀ (l : List β) (h : l ≠ []) (p : β → Bool), p (l.getLast h) = true →
      (l.filter p).getLast? = some (l.getLast h) := by
  intro l
  induction l with
  | nil => intro h; exact absurd rfl h
  | cons x t ih =>
      intro h p hp
      cases t with
      | nil => simp_all [List.filter]
      | cons y s =>
          have ht : (y :: s : List β) ≠ [] := List.cons_ne_nil _ _
          have hlast : (x :: y :: s).getLast h = (y :: s).getLast ht := by
            simp [List.getLast_cons]
          rw [hlast] at hp ⊢
          have ihr := ih ht p hp
          rw [List.filter_cons]
          split
          · have hne : (y :: s).filter p ≠ [] := by
              intro hnil
              rw [hnil] at ihr
              simp at ihr
            rw [getLast?_cons_of_ne_nil _ hne]
            exact ihr
          · exact ihr

theorem filter_ra_eq_nil {α : Type} {l : List (Row α)} {m : Int}
    (h : ∀ r ∈ l, r.refreshed_at < m) :
    l.filter (fun r => decide (r.refreshed_at = m)) = [] := by
  rw [List.filter_eq_nil_iff]
  intro r hr
  have := h r hr
  simp
  omega

/-- `pickLatest` returns the last row whose `refreshed_at` is maximal. -/
theorem pickLatest_getLast_filter {α : Type} :
    ∀ (l : List (Row α)) (w : Row α), pickLatest l = some w →
      (l.filter (fun r => decide (r.refreshed_at = w.refreshed_at))).getLast?
        = some w := by
  intro l
  induction l with
  | nil => intro w h; simp [pickLatest] at h
  | cons r rest ih =>
      intro w h
      cases hr : pickLatest rest with
      | none =>
          rw [pickLatest_cons_none hr, Option.some.injEq] at h
          subst h
          rw [pickLatest_eq_none.mp hr]
          simp
      | some w' =>
          rw [pickLatest_cons_some hr] at h
          split at h <;> rw [Option.some.injEq] at h <;> rw [← h]
          · have ihr := ih _ hr
            rw [List.filter_cons]
            split
            · have hne :
                  rest.filter (fun x => decide (x.refreshed_at = w'.refreshed_at)) ≠ [] := by
                intro hnil
                rw [hnil] at ihr
                simp at ihr
              rw [getLast?_cons_of_ne_nil _ hne]
              exact ihr
            · exact ihr
          · rename_i hcond
            simp only [not_le] at hcond
            have hall : ∀ x ∈ rest, x.refreshed_at < r.refreshed_at := by
              intro x hx
              have := pickLatest_le rest w' hr x hx
              omega
            rw [List.filter_cons]
            simp only [decide_True, if_pos]
            rw [filter_ra_eq_nil hall]
            simp

/-- Converse of `pickLatest_getLast_filter`: if `m` bounds every stamp and
`w` is the last row stamped `m`, then `w` is the pick. -/
theorem pickLatest_of_getLast_filter {α : Type} {m : Int} :
    ∀ (l : List (Row α)) (w : Row α),
      (∀ r ∈ l, r.refreshed_at ≤ m) →
      (l.filter (fun r => decide (r.refreshed_at = m))).getLast? = some w →
      pickLatest l = some w := by
  intro l
  induction l with
  | nil => intro w _ hw; simp at hw
  | cons r rest ih =>
      intro w hall hw
      by_cases hs : rest.filter (fun r => decide (r.refreshed_at = m)) = []
      · rw [List.filter_cons] at hw
        split at hw
        · rename_i hrm
          rw [hs] at hw
          simp only [List.getLast?_singleton, Option.some.injEq] at hw
          rw [← hw]
          simp only [decide_eq_true_eq] at hrm
          cases hr : pickLatest rest with
          | none => exact pickLatest_cons_none hr
          | some w' =>
              have hw'mem := pickLatest_mem rest w' hr
              have hw'ne : w'.refreshed_at ≠ m := by
                intro he
                have : w' ∈ rest.filter (fun x => decide (x.refreshed_at = m)) :=
                  List.mem_filter.mpr ⟨hw'mem, by simp [he]⟩
                rw [hs] at this
                simp at this
              have hw'lt : w'.refreshed_at < r.refreshed_at := by
                have := hall w' (List.mem_cons_of_mem _ hw'mem)
                omega
              rw [pickLatest_cons_some hr, if_neg (by omega)]
        · rw [hs] at hw
          simp at hw
      · have hw' : (rest.filter (fun r => decide (r.refreshed_at = m))).getLast?
            = some w := by
          rw [List.filter_cons] at hw
          split at hw
          · rw [getLast?_cons_of_ne_nil _ hs] at hw
            exact hw
          · exact hw
        have hpick := ih w (fun x hx => hall x (List.mem_cons_of_mem _ hx)) hw'
        have hwmem : w ∈ rest.filter (fun r => decide (r.refreshed_at = m)) :=
          List.mem_of_getLast?_eq_some hw'
        have hwra : w.refreshed_at = m := by
          have := (List.mem_filter.mp hwmem).2
          simpa using this
        rw [pickLatest_cons_some hpick, if_pos]
        rw [hwra]
        exact hall r (List.mem_cons_self _ _)

/-! ### Stability of the sort: rows that compare equal keep their order -/

theorem filter_sortRows {α : Type} (p : Row α → Bool) (l : List (Row α))
    (hp : (l.filter p).Pairwise (RowLe (α := α))) :
    (sortRows l).filter p = l.filter p := by
  have hsub : l.filter p <+ sortRows l :=
    List.sublist_insertionSort hp (List.filter_sublist l)
  have hperm : (sortRows l).filter p ~ l.filter p :=
    (List.perm_insertionSort (RowLe (α := α)) l).filter p
  have he : (l.filter p).filter p = l.filter p := by
    rw [List.filter_filter]
    congr 1
    funext a
    exact Bool.and_self (p a)
  have hsub2 : l.filter p <+ (sortRows l).filter p := by
    have := hsub.filter p
    rwa [he] at this
  exact (hsub2.eq_of_length hperm.length_eq.symm).symm

theorem pairwise_getLast {β : Type} {R : β → β → Prop} :
    ∀ (l : List β) (h : l ≠ []), l.Pairwise R →
      ∀ a ∈ l, a = l.getLast h ∨ R a (l.getLast h) := by
  intro l
  induction l with
  | nil => intro h; exact absurd rfl h
  | cons x t ih =>
      intro h hp a ha
      cases t with
      | nil =>
          simp only [List.mem_singleton] at ha
          subst ha
          left
          simp
      | cons y s =>
          have ht : (y :: s : List β) ≠ [] := List.cons_ne_nil _ _
          have hlast : (x :: y :: s).getLast h = (y :: s).getLast ht := by
            simp [List.getLast_cons]
          rw [hlast]
          rcases List.mem_cons.mp ha with rfl | ha'
          · right
            exact (List.pairwise_cons.mp hp).1 _ (List.getLast_mem ht)
          · exact ih ht (List.pairwise_cons.mp hp).2 a ha'

/-- Central characterisation: within one `(game_id, play_id)` key, the last
row of the stable-sorted list is exactly the "latest wins" pick over the
unsorted input — greatest `refreshed_at`, ties to the later arrival. -/
theorem getLast_filter_sortRows {α : Type} (l : List (Row α)) (k : String × Int) :
    ((sortRows l).filter (keyIs k)).getLast? = winner k l := by
  have hperm : (sortRows l).filter (keyIs k) ~ l.filter (keyIs k) :=
    (List.perm_insertionSort (RowLe (α := α)) l).filter (keyIs k)
  by_cases hu : l.filter (keyIs k) = []
  · rw [winner, hu]
    rw [hu] at hperm
    rw [hperm.eq_nil]
    simp [pickLatest]
  · have ht : (sortRows l).filter (keyIs k) ≠ [] := by
      intro h0
      rw [h0] at hperm
      exact hu hperm.nil_eq.symm
    have hsorted : ((sortRows l).filter (keyIs k)).Pairwise (RowLe (α := α)) :=
      (List.sorted_insertionSort (RowLe (α := α)) l).filter (keyIs k)
    have hkey_t : ∀ r ∈ (sortRows l).filter (keyIs k), rkey r = k := by
      intro r hr
      have := (List.mem_filter.mp hr).2
      simpa [keyIs] using this
    set w0 := ((sortRows l).filter (keyIs k)).getLast ht with hw0
    have hw0mem : w0 ∈ (sortRows l).filter (keyIs k) := List.getLast_mem ht
    have f1 : ∀ r ∈ (sortRows l).filter (keyIs k),
        r.refreshed_at ≤ w0.refreshed_at := by
      intro r hr
      rcases pairwise_getLast _ ht hsorted r hr with he | hR
      · rw [he]
      · exact (rowLE_of_same_key
          ((hkey_t r hr).trans (hkey_t w0 hw0mem).symm)).mp hR
    have f2 : ∀ r ∈ l.filter (keyIs k), r.refreshed_at ≤ w0.refreshed_at :=
      fun r hr => f1 r (hperm.mem_iff.mpr hr)
    have f3 : (((sortRows l).filter (keyIs k)).filter
        (fun r => decide (r.refreshed_at = w0.refreshed_at))).getLast?
          = some w0 :=
      getLast?_filter_of_last_pos _ ht _ (by rw [← hw0]; simp)
    have hpair : (l.filter (fun a =>
        decide (a.refreshed_at = w0.refreshed_at) && keyIs k a)).Pairwise
          (RowLe (α := α)) := by
      apply List.pairwise_of_forall_mem_list
      intro a ha b hb
      have ha' := (List.mem_filter.mp ha).2
      have hb' := (List.mem_filter.mp hb).2
      simp only [Bool.and_eq_true, decide_eq_true_eq, keyIs] at ha' hb'
      exact (rowLE_of_same_key (ha'.2.trans hb'.2.symm)).mpr (by omega)
    have f4 : ((sortRows l).filter (keyIs k)).filter
        (fun r => decide (r.refreshed_at = w0.refreshed_at))
          = (l.filter (keyIs k)).filter
            (fun r => decide (r.refreshed_at = w0.refreshed_at)) := by
      rw [List.filter_filter, List.filter_filter]
      exact filter_sortRows _ l hpair
    rw [winner]
    rw [pickLatest_of_getLast_filter (l.filter (keyIs k)) w0 f2
      (by rw [← f4]; exact f3)]
    exact List.getLast?_eq_getLast _ ht

/-! ### `dropDupKeepLast`: keep the last row per key -/

theorem dropDupKeepLast_subset {α : Type} :
    ∀ (l : List (Row α)) (r : Row α), r ∈ dropDupKeepLast l → r ∈ l := by
  intro l
  induction l with
  | nil => intro r h; simp [dropDupKeepLast] at h
  | cons x xs ih =>
      intro r h
      unfold dropDupKeepLast at h
      split at h
      · exact List.mem_cons_of_mem _ (ih r h)
      · rcases List.mem_cons.mp h with rfl | h'
        · exact List.mem_cons_self _ _
        · exact List.mem_cons_of_mem _ (ih r h')

theorem filter_dropDupKeepLast {α : Type} (k : String × Int) :
    ∀ (l : List (Row α)),
      (dropDupKeepLast l).filter (keyIs k) = ((l.filter (keyIs k)).getLast?).toList := by
  intro l
  induction l with
  | nil => simp [dropDupKeepLast]
  | cons x xs ih =>
      unfold dropDupKeepLast
      split
      · rename_i ha
        rw [List.filter_cons]
        split
        · rename_i hx
          have hkx : rkey x = k := by simpa [keyIs] using hx
          obtain ⟨y, hy, hky⟩ := List.any_eq_true.mp ha
          have hyk : keyIs k y = true := by
            have : rkey y = rkey x := by simpa [keyIs] using hky
            simp [keyIs, this, hkx]
          have hne : xs.filter (keyIs k) ≠ [] := by
            intro h0
            have : y ∈ xs.filter (keyIs k) := List.mem_filter.mpr ⟨hy, hyk⟩
            rw [h0] at this
            simp at this
          rw [getLast?_cons_of_ne_nil _ hne]
          exact ih
        · exact ih
      · rename_i ha
        have hnone : ∀ y ∈ xs, keyIs (rkey x) y = false := by
          intro y hy
          by_contra hcon
          exact ha (List.any_eq_true.mpr ⟨y, hy, by simpa using hcon⟩)
        rw [List.filter_cons, List.filter_cons]
        by_cases hx : keyIs k x = true
        · have hkx : rkey x = k := by simpa [keyIs] using hx
          have hfn : xs.filter (keyIs k) = [] := by
            rw [List.filter_eq_nil_iff]
            intro y hy
            have h2 := hnone y hy
            simp only [keyIs, decide_eq_false_iff_not] at h2
            rw [hkx] at h2
            simpa [keyIs] using h2
          rw [hx, if_pos rfl, ih, hfn]
          simp
        · rw [if_neg hx, if_neg hx]
          exact ih

theorem mem_dropDupKeepLast {α : Type} {l : List (Row α)} {r : Row α} :
    r ∈ dropDupKeepLast l ↔ (l.filter (keyIs (rkey r))).getLast? = some r := by
  constructor
  · intro h
    have hmem : r ∈ (dropDupKeepLast l).filter (keyIs (rkey r)) :=
      List.mem_filter.mpr ⟨h, by simp [keyIs]⟩
    rw [filter_dropDupKeepLast] at hmem
    cases hlast : (l.filter (keyIs (rkey r))).getLast? with
    | none => rw [hlast] at hmem; simp at hmem
    | some w =>
        rw [hlast] at hmem
        simp only [Option.toList_some, List.mem_singleton] at hmem
        rw [hmem]
  · intro h
    have : r ∈ (dropDupKeepLast l).filter (keyIs (rkey r)) := by
      rw [filter_dropDupKeepLast, h]
      simp
    exact (List.mem_filter.mp this).1

theorem dropDupKeepLast_uniqueKeys {α : Type} :
    ∀ l : List (Row α), UniqueKeys (dropDupKeepLast l) := by
  intro l
  induction l with
  | nil => simp [dropDupKeepLast, UniqueKeys]
  | cons x xs ih =>
      unfold dropDupKeepLast
      split
      · exact ih
      · rename_i ha
        refine List.Pairwise.cons ?_ ih
        intro b hb
        have hbxs := dropDupKeepLast_subset xs b hb
        by_contra hcon
        apply ha
        exact List.any_eq_true.mpr ⟨b, hbxs, by simp [keyIs, hcon]⟩

/-! ### Characterisation of `upsert_latest_wins` on a non-empty store -/

theorem mem_upsert_latest_wins {α : Type} {C B : List (Row α)} (hC : C ≠ [])
    (r : Row α) :
    r ∈ upsert_latest_wins (some C) B ↔ winner (rkey r) (C ++ B) = some r := by
  simp only [upsert_latest_wins]
  rw [if_neg (by simpa using hC)]
  rw [mem_dropDupKeepLast, getLast_filter_sortRows]

theorem upsert_latest_wins_uniqueKeys {α : Type} {C B : List (Row α)}
    (hC : C ≠ []) : UniqueKeys (upsert_latest_wins (some C) B) := by
  simp only [upsert_latest_wins]
  rw [if_neg (by simpa using hC)]
  exact dropDupKeepLast_uniqueKeys _

theorem winner_mem {α : Type} {k : String × Int} {l : List (Row α)} {w : Row α}
    (h : winner k l = some w) : w ∈ l ∧ rkey w = k := by
  have hm := pickLatest_mem _ _ h
  have := List.mem_filter.mp hm
  exact ⟨this.1, by simpa [keyIs] using this.2⟩

theorem winner_isSome_iff {α : Type} (k : String × Int) (l : List (Row α)) :
    (∃ w, winner k l = some w) ↔ ∃ r ∈ l, rkey r = k := by
  constructor
  · intro ⟨w, hw⟩
    obtain ⟨hmem, hkey⟩ := winner_mem hw
    exact ⟨w, hmem, hkey⟩
  · intro ⟨r, hr, hk⟩
    cases hp : winner k l with
    | some w => exact ⟨w, rfl⟩
    | none =>
        have : l.filter (keyIs k) = [] := pickLatest_eq_none.mp hp
        have hrf : r ∈ l.filter (keyIs k) :=
          List.mem_filter.mpr ⟨hr, by simp [keyIs, hk]⟩
        rw [this] at hrf
        simp at hrf

theorem dropDupKeepLast_ne_nil {α : Type} :
    ∀ l : List (Row α), l ≠ [] → dropDupKeepLast l ≠ [] := by
  intro l
  induction l with
  | nil => intro h; exact absurd rfl h
  | cons x xs ih =>
      intro _
      unfold dropDupKeepLast
      split
      · rename_i ha
        obtain ⟨y, hy, -⟩ := List.any_eq_true.mp ha
        exact ih (List.ne_nil_of_mem hy)
      · exact List.cons_ne_nil _ _

theorem upsert_latest_wins_ne_nil {α : Type} {C B : List (Row α)}
    (hC : C ≠ []) : upsert_latest_wins (some C) B ≠ [] := by
  simp only [upsert_latest_wins]
  rw [if_neg (by simpa using hC)]
  apply dropDupKeepLast_ne_nil
  intro h0
  have := congrArg List.length h0
  rw [sortRows, List.length_insertionSort] at this
  simp only [List.length_nil, List.length_append] at this
  rcases C with _ | ⟨c, cs⟩
  · exact hC rfl
  · simp at this

/-- In a key-unique list, the rows with the key of a member `r` are `[r]`. -/
theorem filter_key_of_uniqueKeys {α : Type} :
    ∀ {B : List (Row α)}, UniqueKeys B → ∀ {r : Row α}, r ∈ B →
      B.filter (keyIs (rkey r)) = [r] := by
  intro B
  induction B with
  | nil => intro _ r hr; simp at hr
  | cons x xs ih =>
      intro hu r hr
      have hpc := List.pairwise_cons.mp hu
      rcases List.mem_cons.mp hr with rfl | hr'
      · rw [List.filter_cons, if_pos (by simp [keyIs])]
        have : xs.filter (keyIs (rkey r)) = [] := by
          rw [List.filter_eq_nil_iff]
          intro y hy
          have := hpc.1 y hy
          simp [keyIs]
          exact fun he => this he.symm
        rw [this]
      · rw [List.filter_cons, if_neg]
        · exact ih hpc.2 hr'
        · have := hpc.1 r hr'
          simp [keyIs]
          exact this

/-- Re-merging a batch does not change the winner of any key when the
existing store is non-empty: the already-merged winner has the maximal
stamp, and among equal stamps the re-appended batch re-elects it. -/
theorem winner_upsert_append {α : Type} {C B : List (Row α)} (hC : C ≠ [])
    (k : String × Int) :
    winner k (upsert_latest_wins (some C) B ++ B) = winner k (C ++ B) := by
  have hR1 : (upsert_latest_wins (some C) B).filter (keyIs k)
      = (winner k (C ++ B)).toList := by
    simp only [upsert_latest_wins]
    rw [if_neg (by simpa using hC)]
    rw [filter_dropDupKeepLast, getLast_filter_sortRows]
  rw [winner, List.filter_append, hR1]
  cases hw : winner k (C ++ B) with
  | none =>
      have hnil : (C ++ B).filter (keyIs k) = [] := pickLatest_eq_none.mp hw
      rw [List.filter_append] at hnil
      have hB : B.filter (keyIs k) = [] := (List.append_eq_nil.mp hnil).2
      rw [hB]
      simp [pickLatest]
  | some w =>
      have hWra : ∀ r ∈ (C ++ B).filter (keyIs k),
          r.refreshed_at ≤ w.refreshed_at := pickLatest_le _ _ hw
      have hlast := pickLatest_getLast_filter _ _ hw
      simp only [Option.toList_some, List.singleton_append]
      apply pickLatest_of_getLast_filter (m := w.refreshed_at)
      · intro r hrm
        rcases List.mem_cons.mp hrm with rfl | hr'
        · exact le_refl _
        · exact hWra r (by rw [List.filter_append]; exact List.mem_append_right _ hr')
      · rw [List.filter_cons, if_pos (by simp)]
        by_cases hBf : (B.filter (keyIs k)).filter
            (fun r => decide (r.refreshed_at = w.refreshed_at)) = []
        · rw [hBf]
          simp
        · rw [getLast?_cons_of_ne_nil _ hBf]
          rw [List.filter_append, List.filter_append] at hlast
          rw [List.getLast?_append] at hlast
          cases hg : ((B.filter (keyIs k)).filter
              (fun r => decide (r.refreshed_at = w.refreshed_at))).getLast? with
          | none =>
              rw [List.getLast?_eq_none_iff] at hg
              exact absurd hg hBf
          | some v =>
              rw [hg] at hlast
              simp only [Option.or_some] at hlast
              exact hlast

/-! ## Claim theorems for the merge/upsert engine -/

/-- C1 (counterexample): as stated, merge idempotence fails when the
existing cumulative set is empty and the batch carries two rows with the
same `(game_id, play_id)` key: the first merge returns the batch with both
rows (the empty-store path performs no deduplication), while re-merging
deduplicates, so the two results are not the same set of rows. -/
theorem upsert_idempotent_counterexample :
    upsert_latest_wins (some ([] : List (Row Bool)))
        [⟨"G1", 10, 5, false⟩, ⟨"G1", 10, 5, true⟩]
      = [⟨"G1", 10, 5, false⟩, ⟨"G1", 10, 5, true⟩] ∧
    upsert_latest_wins
        (some (upsert_latest_wins (some ([] : List (Row Bool)))
          [⟨"G1", 10, 5, false⟩, ⟨"G1", 10, 5, true⟩]))
        [⟨"G1", 10, 5, false⟩, ⟨"G1", 10, 5, true⟩]
      = [⟨"G1", 10, 5, true⟩] ∧
    (⟨"G1", 10, 5, false⟩ : Row Bool) ∈
      upsert_latest_wins (some ([] : List (Row Bool)))
        [⟨"G1", 10, 5, false⟩, ⟨"G1", 10, 5, true⟩] ∧
    (⟨"G1", 10, 5, false⟩ : Row Bool) ∉
      upsert_latest_wins
        (some (upsert_latest_wins (some ([] : List (Row Bool)))
          [⟨"G1", 10, 5, false⟩, ⟨"G1", 10, 5, true⟩]))
        [⟨"G1", 10, 5, false⟩, ⟨"G1", 10, 5, true⟩] := by
  refine ⟨by decide, by decide, by decide, by decide⟩

/-- C1 (amended): merge is idempotent — re-merging an already-applied
batch changes nothing (same set of rows) — for every non-empty batch `B`,
provided the existing cumulative set `C` is non-empty or the batch itself
has at most one row per key (both hold for every cumulative store reached
after a first successful merge of a key-unique derived batch). -/
theorem upsert_idempotent {α : Type} (C B : List (Row α))
    (h : C ≠ [] ∨ UniqueKeys B) (hB : B ≠ []) :
    ∀ r : Row α,
      r ∈ upsert_latest_wins (some (upsert_latest_wins (some C) B)) B ↔
        r ∈ upsert_latest_wins (some C) B := by
  intro r
  by_cases hC : C = []
  · subst hC
    have hU : UniqueKeys B := by
      rcases h with h | h
      · exact absurd rfl h
      · exact h
    have h1 : upsert_latest_wins (some ([] : List (Row α))) B = B := rfl
    rw [h1, mem_upsert_latest_wins hB]
    constructor
    · intro hw
      rcases List.mem_append.mp (winner_mem hw).1 with hm | hm <;> exact hm
    · intro hrB
      have hf : B.filter (keyIs (rkey r)) = [r] := filter_key_of_uniqueKeys hU hrB
      rw [winner, List.filter_append, hf]
      show pickLatest [r, r] = some r
      have h2 : pickLatest [r] = some r := by simp [pickLatest]
      rw [pickLatest_cons_some h2, if_pos (le_refl _)]
  · have hR1 : upsert_latest_wins (some C) B ≠ [] := upsert_latest_wins_ne_nil hC
    rw [mem_upsert_latest_wins hR1, winner_upsert_append hC,
      mem_upsert_latest_wins hC]

/-- C1 (witness): the amended idempotence at a concrete store and batch. -/
theorem upsert_idempotent_witness :
    (([⟨"G1", 3, 1, false⟩] : List (Row Bool)) ≠ [] ∨
      UniqueKeys ([⟨"G1", 10, 7, true⟩] : List (Row Bool))) ∧
    ([⟨"G1", 10, 7, true⟩] : List (Row Bool)) ≠ [] ∧
    ((⟨"G1", 10, 7, true⟩ : Row Bool) ∈
        upsert_latest_wins
          (some (upsert_latest_wins (some [⟨"G1", 3, 1, false⟩])
            [⟨"G1", 10, 7, true⟩])) [⟨"G1", 10, 7, true⟩] ↔
      (⟨"G1", 10, 7, true⟩ : Row Bool) ∈
        upsert_latest_wins (some [⟨"G1", 3, 1, false⟩]) [⟨"G1", 10, 7, true⟩]) :=
  ⟨Or.inl (by decide), by decide,
    upsert_idempotent _ _ (Or.inl (by decide)) (by decide) _⟩

/-- C2: on non-empty inputs the merge result has exactly one row per key
drawn from the inputs: the keys of the result are exactly the keys of
`C ++ B`, each key`s row is `winner` of that key — the whole input row with
the greatest `refreshed_at`, ties broken in favour of the later-arriving
batch row (`B` follows `C` in the concatenation, so equal stamps elect the
batch row) — and in particular every result row bounds the stamps of all
input rows sharing its key, never mixing fields of distinct rows. -/
theorem upsert_latest_wins_spec {α : Type} (C B : List (Row α))
    (hC : C ≠ []) (hB : B ≠ []) :
    UniqueKeys (upsert_latest_wins (some C) B) ∧
    (∀ k : String × Int,
      (∃ r ∈ upsert_latest_wins (some C) B, rkey r = k) ↔
        ∃ r ∈ C ++ B, rkey r = k) ∧
    (∀ r : Row α,
      r ∈ upsert_latest_wins (some C) B ↔ winner (rkey r) (C ++ B) = some r) ∧
    (∀ r ∈ upsert_latest_wins (some C) B, r ∈ C ++ B ∧
      ∀ x ∈ C ++ B, rkey x = rkey r → x.refreshed_at ≤ r.refreshed_at) := by
  refine ⟨upsert_latest_wins_uniqueKeys hC, ?_, mem_upsert_latest_wins hC, ?_⟩
  · intro k
    constructor
    · intro ⟨r, hr, hk⟩
      have hw := (mem_upsert_latest_wins hC r).mp hr
      exact ⟨r, (winner_mem hw).1, hk⟩
    · intro hex
      obtain ⟨w, hw⟩ := (winner_isSome_iff k (C ++ B)).mpr hex
      have hk := (winner_mem hw).2
      refine ⟨w, ?_, hk⟩
      rw [mem_upsert_latest_wins hC, hk]
      exact hw
  · intro r hr
    have hw := (mem_upsert_latest_wins hC r).mp hr
    refine ⟨(winner_mem hw).1, ?_⟩
    intro x hx hk
    exact pickLatest_le _ _ hw x
      (List.mem_filter.mpr ⟨hx, by simp [keyIs, hk]⟩)

/-- C2 (witness): the spec`s own example — existing row at stamp 1,
batch row for the same key at stamp 2. -/
theorem upsert_latest_wins_spec_witness :
    ([⟨"G1", 10, 1, false⟩] : List (Row Bool)) ≠ [] ∧
    ([⟨"G1", 10, 2, true⟩] : List (Row Bool)) ≠ [] ∧
    UniqueKeys (upsert_latest_wins (some [⟨"G1", 10, 1, false⟩])
      [⟨"G1", 10, 2, true⟩]) :=
  ⟨by decide, by decide,
    (upsert_latest_wins_spec _ _ (by decide) (by decide)).1⟩

/-- C3 (counterexample): with an empty (or absent) existing set the code
returns the new batch as-is without deduplication, so a batch carrying two
rows with the same `(game_id, play_id)` yields a result that is not
key-unique, contradicting the claim. -/
theorem upsert_empty_counterexample :
    upsert_latest_wins (some ([] : List (Row Bool)))
        [⟨"G1", 10, 5, false⟩, ⟨"G1", 10, 5, true⟩]
      = [⟨"G1", 10, 5, false⟩, ⟨"G1", 10, 5, true⟩] ∧
    ¬ UniqueKeys (upsert_latest_wins (some ([] : List (Row Bool)))
        [⟨"G1", 10, 5, false⟩, ⟨"G1", 10, 5, true⟩]) ∧
    ¬ UniqueKeys (upsert_latest_wins none
        [(⟨"G1", 10, 5, false⟩ : Row Bool), ⟨"G1", 10, 5, true⟩]) := by
  refine ⟨by decide, by decide, by decide⟩

/-- C3 (amended): when the existing cumulative set is empty or absent,
`upsert_latest_wins` returns the new batch unchanged; consequently the
result has at most one row per key exactly when the batch itself does. -/
theorem upsert_empty_amended {α : Type} (B : List (Row α)) :
    upsert_latest_wins none B = B ∧
    upsert_latest_wins (some ([] : List (Row α))) B = B ∧
    (UniqueKeys (upsert_latest_wins none B) ↔ UniqueKeys B) ∧
    (UniqueKeys (upsert_latest_wins (some ([] : List (Row α))) B) ↔
      UniqueKeys B) :=
  ⟨rfl, rfl, Iff.rfl, Iff.rfl⟩

/-! ### Row-level invariants of the state update -/

theorem updateExisting_game_id (season now inact : Int) (row : GameState)
    (m : MetricRow) (nl : Bool) :
    ((updateExisting season now inact row m nl).1).game_id = row.game_id := by
  unfold updateExisting
  dsimp only
  split_ifs <;> rfl

theorem updateExisting_frozen_terminal (season now inact : Int)
    (row : GameState) (m : MetricRow) (nl : Bool)
    (hf : row.is_frozen = true) :
    ((updateExisting season now inact row m nl).1).is_frozen = true ∧
    ((updateExisting season now inact row m nl).1).freeze_reason
      = row.freeze_reason := by
  unfold updateExisting
  dsimp only
  split_ifs <;> simp_all

theorem processOne_game_id (season now inact : Int) (sc : Bool)
    (o : Option GameState) (m : MetricRow)
    (ho : ∀ r, o = some r → r.game_id = m.game_id) :
    ((processOne season now inact sc o m).1).game_id = m.game_id := by
  cases o with
  | none =>
      show ((let not_loaded := statusNotLoaded (if sc then m.status else "");
        let fresh := freshRow season now m.game_id m.max_play_id;
        if not_loaded then (fresh, false)
        else updateExisting season now inact fresh m not_loaded).1).game_id
          = m.game_id
      dsimp only
      split_ifs <;> (try rw [updateExisting_game_id]) <;> rfl
  | some r =>
      show ((updateExisting season now inact r m _).1).game_id = m.game_id
      rw [updateExisting_game_id]
      exact ho r rfl

theorem processOne_frozen_terminal (season now inact : Int) (sc : Bool)
    (row : GameState) (m : MetricRow) (hf : row.is_frozen = true) :
    ((processOne season now inact sc (some row) m).1).is_frozen = true ∧
    ((processOne season now inact sc (some row) m).1).freeze_reason
      = row.freeze_reason := by
  exact updateExisting_frozen_terminal _ _ _ _ _ _ hf

/-! ### `lastIdxOf` / `lookupLast` -/

theorem lastIdxOf_cons_some {rest : List GameState} {gid : String} {i : Nat}
    (r : GameState) (hr : lastIdxOf rest gid = some i) :
    lastIdxOf (r :: rest) gid = some (i + 1) := by
  simp [lastIdxOf, hr]

theorem lastIdxOf_cons_none {rest : List GameState} {gid : String}
    (r : GameState) (hr : lastIdxOf rest gid = none) :
    lastIdxOf (r :: rest) gid =
      if r.game_id = gid then some 0 else none := by
  simp only [lastIdxOf, hr]
  split_ifs with h <;> simp_all

theorem lastIdxOf_spec :
    ∀ (st : List GameState) (gid : String) (i : Nat),
      lastIdxOf st gid = some i →
      ∃ row, st[i]? = some row ∧ row.game_id = gid := by
  intro st
  induction st with
  | nil => intro gid i h; simp [lastIdxOf] at h
  | cons r rest ih =>
      intro gid i h
      cases hr : lastIdxOf rest gid with
      | some j =>
          rw [lastIdxOf_cons_some r hr, Option.some.injEq] at h
          subst h
          obtain ⟨row, hrow, hgid⟩ := ih gid j hr
          refine ⟨row, ?_, hgid⟩
          simpa using hrow
      | none =>
          rw [lastIdxOf_cons_none r hr] at h
          split_ifs at h with hg
          rw [Option.some.injEq] at h
          subst h
          exact ⟨r, by simp, hg⟩

theorem lastIdxOf_eq_none :
    ∀ (st : List GameState) (gid : String),
      lastIdxOf st gid = none ↔ ∀ r ∈ st, r.game_id ≠ gid := by
  intro st
  induction st with
  | nil => intro gid; simp [lastIdxOf]
  | cons r rest ih =>
      intro gid
      cases hr : lastIdxOf rest gid with
      | some j =>
          rw [lastIdxOf_cons_some r hr]
          constructor
          · intro h
            simp at h
          · intro hall
            have h0 : lastIdxOf rest gid = none :=
              (ih gid).mpr (fun x hx => hall x (List.mem_cons_of_mem _ hx))
            rw [hr] at h0
            simp at h0
      | none =>
          rw [lastIdxOf_cons_none r hr]
          have hrest := (ih gid).mp hr
          split_ifs with hg
          · simp only [false_iff]
            intro hall
            exact hall r (List.mem_cons_self _ _) hg
          · simp only [true_iff]
            intro x hx
            rcases List.mem_cons.mp hx with rfl | hx'
            · exact hg
            · exact hrest x hx'

theorem lastIdxOf_append_one :
    ∀ (st : List GameState) (x : GameState) (gid : String),
      lastIdxOf (st ++ [x]) gid =
        if x.game_id = gid then some st.length else lastIdxOf st gid := by
  intro st
  induction st with
  | nil =>
      intro x gid
      simp only [List.nil_append, List.length_nil]
      cases hr : lastIdxOf ([] : List GameState) gid with
      | some j => simp [lastIdxOf] at hr
      | none => rw [lastIdxOf_cons_none x hr]
  | cons r rest ih =>
      intro x gid
      simp only [List.cons_append, List.length_cons]
      cases hr : lastIdxOf (rest ++ [x]) gid with
      | some j =>
          rw [lastIdxOf_cons_some r hr]
          rw [ih x gid] at hr
          split_ifs with hx
          · rw [if_pos hx, Option.some.injEq] at hr
            rw [hr]
          · rw [if_neg hx] at hr
            rw [lastIdxOf_cons_some r hr]
      | none =>
          rw [lastIdxOf_cons_none r hr]
          rw [ih x gid] at hr
          split_ifs at hr with hx
          rw [if_neg hx]
          rw [lastIdxOf_cons_none r hr]

theorem lastIdxOf_set :
    ∀ (st : List GameState) (i : Nat) (v row : GameState) (gid : String),
      st[i]? = some row → v.game_id = row.game_id →
      lastIdxOf (st.set i v) gid = lastIdxOf st gid := by
  intro st
  induction st with
  | nil => intro i v row gid h; simp at h
  | cons r rest ih =>
      intro i v row gid h hg
      cases i with
      | zero =>
          simp only [List.getElem?_cons_zero, Option.some.injEq] at h
          subst h
          simp only [List.set_cons_zero]
          cases hr : lastIdxOf rest gid with
          | some j =>
              rw [lastIdxOf_cons_some v hr, lastIdxOf_cons_some r hr]
          | none =>
              rw [lastIdxOf_cons_none v hr, lastIdxOf_cons_none r hr, hg]
      | succ j =>
          simp only [List.getElem?_cons_succ] at h
          simp only [List.set_cons_succ]
          cases hr : lastIdxOf (rest.set j v) gid with
          | some i' =>
              rw [lastIdxOf_cons_some r hr]
              rw [ih j v row gid h hg] at hr
              rw [lastIdxOf_cons_some r hr]
          | none =>
              rw [lastIdxOf_cons_none r hr]
              rw [ih j v row gid h hg] at hr
              rw [lastIdxOf_cons_none r hr]

theorem lookupLast_append_one_self (st : List GameState) (x : GameState)
    (gid : String) (hx : x.game_id = gid) :
    lookupLast (st ++ [x]) gid = some x := by
  unfold lookupLast
  rw [lastIdxOf_append_one, if_pos hx]
  simp

theorem lookupLast_append_one_other (st : List GameState) (x : GameState)
    (gid : String) (hx : x.game_id ≠ gid) :
    lookupLast (st ++ [x]) gid = lookupLast st gid := by
  unfold lookupLast
  rw [lastIdxOf_append_one, if_neg hx]
  cases hl : lastIdxOf st gid with
  | none => rfl
  | some i =>
      obtain ⟨row, hrow, -⟩ := lastIdxOf_spec st gid i hl
      have hi : i < st.length := (List.getElem?_eq_some_iff.mp hrow).1
      simp only [Option.bind_some, Option.some_bind]
      exact List.getElem?_append_left hi

theorem lookupLast_set_self (st : List GameState) (i : Nat)
    (v row : GameState) (gid : String) (hrow : st[i]? = some row)
    (hg : v.game_id = row.game_id) (hi : lastIdxOf st gid = some i) :
    lookupLast (st.set i v) gid = some v := by
  unfold lookupLast
  rw [lastIdxOf_set st i v row gid hrow hg, hi]
  have hlt := (List.getElem?_eq_some_iff.mp hrow).1
  simp [List.getElem?_set_self (by simpa using hlt)]

theorem lookupLast_set_other (st : List GameState) (i : Nat)
    (v row : GameState) (gid : String) (hrow : st[i]? = some row)
    (hg : v.game_id = row.game_id) (hne : row.game_id ≠ gid) :
    lookupLast (st.set i v) gid = lookupLast st gid := by
  unfold lookupLast
  rw [lastIdxOf_set st i v row gid hrow hg]
  cases hl : lastIdxOf st gid with
  | none => rfl
  | some j =>
      obtain ⟨rj, hrj, hjg⟩ := lastIdxOf_spec st gid j hl
      have hji : j ≠ i := by
        intro he
        subst he
        rw [hrow] at hrj
        rw [Option.some.injEq] at hrj
        subst hrj
        exact hne hjg
      simp only [Option.bind_some, Option.some_bind]
      rw [List.getElem?_set_ne (by omega)]

/-! ### One loop iteration and the fold over the metrics rows -/

theorem stepRow_eq_new {st : List GameState} {m : MetricRow}
    (season now inact : Int) (sc : Bool) (k : Nat)
    (h : lastIdxOf st m.game_id = none) :
    stepRow season now inact sc (st, k) m
      = (st ++ [(processOne season now inact sc none m).1],
          k + if (processOne season now inact sc none m).2 then 1 else 0) := by
  simp [stepRow, h]

theorem stepRow_eq_existing {st : List GameState} {m : MetricRow} {i : Nat}
    {row : GameState} (season now inact : Int) (sc : Bool) (k : Nat)
    (h : lastIdxOf st m.game_id = some i) (hrow : st[i]? = some row) :
    stepRow season now inact sc (st, k) m
      = (st.set i (processOne season now inact sc (some row) m).1,
          k + if (processOne season now inact sc (some row) m).2 then 1
            else 0) := by
  simp [stepRow, h, hrow]

theorem lookupLast_of_lastIdxOf_none {st : List GameState} {gid : String}
    (h : lastIdxOf st gid = none) : lookupLast st gid = none := by
  unfold lookupLast
  rw [h]
  rfl

theorem lookupLast_of_lastIdxOf_some {st : List GameState} {gid : String}
    {i : Nat} {row : GameState} (h : lastIdxOf st gid = some i)
    (hrow : st[i]? = some row) : lookupLast st gid = some row := by
  unfold lookupLast
  rw [h]
  simp [hrow]

theorem stepRow_lookup_self (season now inact : Int) (sc : Bool)
    (acc : List GameState × Nat) (m : MetricRow) :
    lookupLast ((stepRow season now inact sc acc m).1) m.game_id
      = some ((processOne season now inact sc
          (lookupLast acc.1 m.game_id) m).1) := by
  obtain ⟨st, k⟩ := acc
  cases hl : lastIdxOf st m.game_id with
  | none =>
      rw [stepRow_eq_new season now inact sc k hl,
        lookupLast_of_lastIdxOf_none hl]
      exact lookupLast_append_one_self _ _ _
        (processOne_game_id _ _ _ _ _ _ (by intro r h; simp at h))
  | some i =>
      obtain ⟨row, hrow, hgid⟩ := lastIdxOf_spec st m.game_id i hl
      rw [stepRow_eq_existing season now inact sc k hl hrow,
        lookupLast_of_lastIdxOf_some hl hrow]
      exact lookupLast_set_self st i _ row m.game_id hrow
        (by rw [processOne_game_id _ _ _ _ _ _ (fun r h => by
              rw [Option.some.injEq] at h
              rw [← h, hgid]), hgid])
        hl

theorem stepRow_lookup_other (season now inact : Int) (sc : Bool)
    (acc : List GameState × Nat) (m : MetricRow) (gid : String)
    (hne : m.game_id ≠ gid) :
    lookupLast ((stepRow season now inact sc acc m).1) gid
      = lookupLast acc.1 gid := by
  obtain ⟨st, k⟩ := acc
  cases hl : lastIdxOf st m.game_id with
  | none =>
      rw [stepRow_eq_new season now inact sc k hl]
      exact lookupLast_append_one_other _ _ _ (by
        rw [processOne_game_id _ _ _ _ _ _ (by intro r h; simp at h)]
        exact hne)
  | some i =>
      obtain ⟨row, hrow, hgid⟩ := lastIdxOf_spec st m.game_id i hl
      rw [stepRow_eq_existing season now inact sc k hl hrow]
      exact lookupLast_set_other st i _ row gid hrow
        (by rw [processOne_game_id _ _ _ _ _ _ (fun r h => by
              rw [Option.some.injEq] at h
              rw [← h, hgid]), hgid])
        (by rw [hgid]; exact hne)

theorem foldl_stepRow_lookup_other (season now inact : Int) (sc : Bool) :
    ∀ (rows : List MetricRow) (acc : List GameState × Nat) (gid : String),
      (∀ m ∈ rows, m.game_id ≠ gid) →
      lookupLast ((rows.foldl (stepRow season now inact sc) acc).1) gid
        = lookupLast acc.1 gid := by
  intro rows
  induction rows with
  | nil => intro acc gid _; rfl
  | cons m rest ih =>
      intro acc gid hall
      rw [List.foldl_cons]
      rw [ih _ gid (fun x hx => hall x (List.mem_cons_of_mem _ hx))]
      exact stepRow_lookup_other _ _ _ _ _ _ _
        (hall m (List.mem_cons_self _ _))

/-- The per-id view of the whole metrics loop: when each requested id has
exactly one metrics record (the §4.3 fetcher contract), the loop leaves,
for each record `m`, exactly the row `processOne` produces from the
pre-cycle row for `m.game_id`. -/
theorem foldl_stepRow_lookup (season now inact : Int) (sc : Bool) :
    ∀ (rows : List MetricRow) (acc : List GameState × Nat) (m : MetricRow),
      m ∈ rows → (rows.map (·.game_id)).Nodup →
      lookupLast ((rows.foldl (stepRow season now inact sc) acc).1) m.game_id
        = some ((processOne season now inact sc
            (lookupLast acc.1 m.game_id) m).1) := by
  intro rows
  induction rows with
  | nil => intro acc m hm; simp at hm
  | cons m0 rest ih =>
      intro acc m hm hd
      rw [List.map_cons, List.nodup_cons] at hd
      rw [List.foldl_cons]
      rcases List.mem_cons.mp hm with rfl | hm'
      · rw [foldl_stepRow_lookup_other _ _ _ _ rest _ m.game_id
          (fun x hx hx' => hd.1 (hx' ▸ List.mem_map_of_mem (·.game_id) hx))]
        exact stepRow_lookup_self _ _ _ _ _ _
      · rw [ih _ m hm' hd.2]
        rw [stepRow_lookup_other _ _ _ _ _ _ _ (by
          intro he
          exact hd.1 (he ▸ List.mem_map_of_mem (·.game_id) hm'))]

theorem stepRow_frozen_at (season now inact : Int) (sc : Bool)
    (acc : List GameState × Nat) (m : MetricRow) (j : Nat) (r : GameState)
    (h : acc.1[j]? = some r) :
    ∃ r', ((stepRow season now inact sc acc m).1)[j]? = some r' ∧
      (r.is_frozen = true →
        r'.is_frozen = true ∧ r'.freeze_reason = r.freeze_reason) := by
  obtain ⟨st, k⟩ := acc
  cases hl : lastIdxOf st m.game_id with
  | none =>
      rw [stepRow_eq_new season now inact sc k hl]
      have hj : j < st.length := (List.getElem?_eq_some_iff.mp h).1
      exact ⟨r, by rw [List.getElem?_append_left hj]; exact h,
        fun hf => ⟨hf, rfl⟩⟩
  | some i =>
      obtain ⟨row, hrow, hgid⟩ := lastIdxOf_spec st m.game_id i hl
      rw [stepRow_eq_existing season now inact sc k hl hrow]
      by_cases hij : j = i
      · subst hij
        rw [h] at hrow
        rw [Option.some.injEq] at hrow
        subst hrow
        have hj : j < st.length := (List.getElem?_eq_some_iff.mp h).1
        refine ⟨(processOne season now inact sc (some r) m).1, ?_, ?_⟩
        · simp [List.getElem?_set_self (by simpa using hj)]
        · intro hf
          exact processOne_frozen_terminal _ _ _ _ _ _ hf
      · exact ⟨r, by rw [List.getElem?_set_ne (by omega)]; exact h,
          fun hf => ⟨hf, rfl⟩⟩

theorem foldl_stepRow_frozen_at (season now inact : Int) (sc : Bool) :
    ∀ (rows : List MetricRow) (acc : List GameState × Nat) (j : Nat)
      (r : GameState), acc.1[j]? = some r →
      ∃ r', ((rows.foldl (stepRow season now inact sc) acc).1)[j]? = some r' ∧
        (r.is_frozen = true →
          r'.is_frozen = true ∧ r'.freeze_reason = r.freeze_reason) := by
  intro rows
  induction rows with
  | nil => intro acc j r h; exact ⟨r, h, fun hf => ⟨hf, rfl⟩⟩
  | cons m rest ih =>
      intro acc j r h
      obtain ⟨r1, h1, hp1⟩ := stepRow_frozen_at season now inact sc acc m j r h
      obtain ⟨r', h', hp'⟩ := ih _ j r1 h1
      refine ⟨r', by rw [List.foldl_cons]; exact h', ?_⟩
      intro hf
      obtain ⟨hf1, he1⟩ := hp1 hf
      obtain ⟨hf', he'⟩ := hp' hf1
      exact ⟨hf', he'.trans he1⟩

/-! ### Which branch of the cycle ran -/

theorem finishCycle_stateStore {σ : Type} (season now inact : Int)
    (gr el : Nat) (fetch : FetchResult) (prevMax : String → Option Int)
    (stores : Stores σ) (ran : Bool) :
    (finishCycle season now inact gr el fetch prevMax stores ran).stores.stateStore
        = stores.stateStore ∨
    (finishCycle season now inact gr el fetch prevMax stores
        ran).stores.stateStore
      = (fetch.metricsRows.foldl
          (stepRow season now inact (fetch.metricsCols.contains "status"))
          (stores.stateStore, 0)).1 := by
  unfold finishCycle
  dsimp only
  split_ifs <;> first
    | exact Or.inl rfl
    | exact Or.inr rfl

theorem refresh_stateStore_cases {σ : Type} (season : Int)
    (ids : List String) (stores : Stores σ) (fetch : FetchResult)
    (run : σ → σ × Option String) (now inact : Int) :
    (refresh_playoff_games season ids stores fetch run
        now inact).stores.stateStore = stores.stateStore ∨
    (refresh_playoff_games season ids stores fetch run
        now inact).stores.stateStore
      = (fetch.metricsRows.foldl
          (stepRow season now inact (fetch.metricsCols.contains "status"))
          (stores.stateStore, 0)).1 := by
  unfold refresh_playoff_games
  dsimp only
  split_ifs
  · exact Or.inl rfl
  · exact Or.inl rfl
  · cases hrun : run stores.cumulative with
    | mk cum1 err =>
        cases err with
        | none =>
            dsimp only
            exact finishCycle_stateStore _ _ _ _ _ _ _ _ _
        | some e => exact Or.inl rfl
  · exact finishCycle_stateStore _ _ _ _ _ _ _ _ _

/-! ## Claim theorems for the refresh cycle -/

/-- C4: frozen is terminal.  Whatever branch a refresh cycle takes and
whatever the fetcher returns, a state row that enters the cycle with
`is_frozen = true` is still frozen with the same `freeze_reason` after the
cycle (rows are addressed positionally; the cycle only appends rows or
rewrites a row in place).  Iterating this over any sequence of cycles
shows every reachable successor of a frozen row is frozen. -/
theorem frozen_terminal_cycle {σ : Type} (season : Int) (ids : List String)
    (stores : Stores σ) (fetch : FetchResult) (run : σ → σ × Option String)
    (now inact : Int) (j : Nat) (r r' : GameState)
    (h : stores.stateStore[j]? = some r)
    (h' : (refresh_playoff_games season ids stores fetch run now
        inact).stores.stateStore[j]? = some r')
    (hf : r.is_frozen = true) :
    r'.is_frozen = true ∧ r'.freeze_reason = r.freeze_reason := by
  rcases refresh_stateStore_cases season ids stores fetch run now inact with
    hc | hc
  · rw [hc, h, Option.some.injEq] at h'
    rw [← h']
    exact ⟨hf, rfl⟩
  · obtain ⟨r2, h2, hp⟩ := foldl_stepRow_frozen_at season now inact
      (fetch.metricsCols.contains "status") fetch.metricsRows
      (stores.stateStore, 0) j r h
    rw [hc, h2, Option.some.injEq] at h'
    rw [← h']
    exact hp hf

/-- C4 (witness): a frozen row survives a concrete cycle that processes
its id with fresh metrics. -/
theorem frozen_terminal_cycle_witness :
    (([⟨2025, "g1", some 0, some 0, some 0, some 5, some 0, some 0, true,
        "final"⟩] : List GameState)[0]?
      = some ⟨2025, "g1", some 0, some 0, some 0, some 5, some 0, some 0,
        true, "final"⟩) ∧
    ((refresh_playoff_games 2025 ["g1", "g2"]
        (⟨(0 : Nat), [⟨2025, "g1", some 0, some 0, some 0, some 5, some 0,
          some 0, true, "final"⟩], none⟩ : Stores Nat)
        ⟨false, ["game_id", "is_final", "max_play_id", "refreshed_at",
          "status"],
          [⟨"g2", some 3, false, "ok"⟩]⟩
        (fun c => (c, none)) 100 3600).stores.stateStore[0]?
      = some ⟨2025, "g1", some 0, some 0, some 0, some 5, some 0, some 0,
        true, "final"⟩) ∧
    ((⟨2025, "g1", some 0, some 0, some 0, some 5, some 0, some 0, true,
        "final"⟩ : GameState).is_frozen = true ∧
      (⟨2025, "g1", some 0, some 0, some 0, some 5, some 0, some 0, true,
        "final"⟩ : GameState).freeze_reason
        = (⟨2025, "g1", some 0, some 0, some 0, some 5, some 0, some 0, true,
          "final"⟩ : GameState).freeze_reason) :=
  ⟨by decide, by decide,
    frozen_terminal_cycle 2025 ["g1", "g2"]
      (⟨(0 : Nat), [⟨2025, "g1", some 0, some 0, some 0, some 5, some 0,
        some 0, true, "final"⟩], none⟩ : Stores Nat)
      ⟨false, ["game_id", "is_final", "max_play_id", "refreshed_at",
        "status"], [⟨"g2", some 3, false, "ok"⟩]⟩
      (fun c => (c, none)) 100 3600 0
      ⟨2025, "g1", some 0, some 0, some 0, some 5, some 0, some 0, true,
        "final"⟩
      ⟨2025, "g1", some 0, some 0, some 0, some 5, some 0, some 0, true,
        "final"⟩
      (by decide) (by decide) (by decide)⟩

/-- C6 (counterexample): a call with an empty requested id list returns
before the lock is ever acquired, contradicting "the lock is still
acquired and released". -/
theorem refresh_lock_counterexample :
    (refresh_playoff_games 2025 ([] : List String)
      (⟨(0 : Nat), [], none⟩ : Stores Nat) ⟨false, [], []⟩
      (fun c => (c, none)) 0 3600).lockTaken = false ∧
    (refresh_playoff_games 2025 ([] : List String)
      (⟨(0 : Nat), [], none⟩ : Stores Nat) ⟨false, [], []⟩
      (fun c => (c, none)) 0 3600).result.ok = true ∧
    (refresh_playoff_games 2025 ([] : List String)
      (⟨(0 : Nat), [], none⟩ : Stores Nat) ⟨false, [], []⟩
      (fun c => (c, none)) 0 3600).result.eligible_games = 0 :=
  ⟨by decide, by decide, by decide⟩

/-- C6 (amended): both short-circuit paths perform no fetch, no merge and
no store mutation and report zero eligible resources with ok = true; the
all-frozen selection still acquires and releases the lock, but an empty
requested list (empty after trimming) returns before the lock is
acquired. -/
theorem refresh_short_circuit {σ : Type} (season : Int) (ids : List String)
    (stores : Stores σ) (fetch : FetchResult) (run : σ → σ × Option String)
    (now inact : Int)
    (h : ((ids.map strTrim).filter (fun s => !s.isEmpty)) = [] ∨
      _select_games_to_refresh ((ids.map strTrim).filter (fun s => !s.isEmpty))
        stores.stateStore = []) :
    (refresh_playoff_games season ids stores fetch run now inact).result.ok
        = true ∧
    (refresh_playoff_games season ids stores fetch run now
        inact).result.eligible_games = 0 ∧
    (refresh_playoff_games season ids stores fetch run now inact).fetched
        = false ∧
    (refresh_playoff_games season ids stores fetch run now
        inact).ranScoringRefresh = false ∧
    (refresh_playoff_games season ids stores fetch run now inact).stores
        = stores ∧
    (refresh_playoff_games season ids stores fetch run now inact).lockTaken
        = !((ids.map strTrim).filter (fun s => !s.isEmpty)).isEmpty ∧
    (refresh_playoff_games season ids stores fetch run now
        inact).lockReleased
      = (refresh_playoff_games season ids stores fetch run now
          inact).lockTaken := by
  by_cases h1 : ((ids.map strTrim).filter (fun s => !s.isEmpty)) = []
  · unfold refresh_playoff_games
    rw [h1]
    norm_num
  · have h2 : _select_games_to_refresh
        ((ids.map strTrim).filter (fun s => !s.isEmpty)) stores.stateStore
          = [] := by
      rcases h with h | h
      · exact absurd h h1
      · exact h
    unfold refresh_playoff_games
    dsimp only
    rw [if_neg (by simpa using h1), h2]
    norm_num
    obtain ⟨y, hy⟩ := List.exists_mem_of_ne_nil _ h1
    have hmem := List.mem_filter.mp hy
    obtain ⟨x, hx, rfl⟩ := List.mem_map.mp hmem.1
    exact ⟨x, hx, by simpa using hmem.2⟩

/-- C5 (counterexample): with live PBP loaded, the scoring refresh
(`refresh_pbp`, which rewrites the cumulative store) runs before the
metrics schema check, so a cycle that aborts on a missing required
metrics column can leave the cumulative store mutated: here it was 0 at
cycle start and is 1 after the ok=false abort. -/
theorem refresh_metrics_abort_counterexample :
    (refresh_playoff_games 2025 ["g1"] (⟨(0 : Nat), [], none⟩ : Stores Nat)
      ⟨true, ["game_id"], []⟩ (fun c => (c + 1, none)) 0 3600).result.ok
        = false ∧
    (refresh_playoff_games 2025 ["g1"] (⟨(0 : Nat), [], none⟩ : Stores Nat)
      ⟨true, ["game_id"], []⟩ (fun c => (c + 1, none)) 0
        3600).stores.cumulative = 1 ∧
    (refresh_playoff_games 2025 ["g1"] (⟨(0 : Nat), [], none⟩ : Stores Nat)
      ⟨true, ["game_id"], []⟩ (fun c => (c + 1, none)) 0
        3600).stores.stateStore = [] :=
  ⟨by decide, by decide, by decide⟩

/-- C5 (amended): on a metrics schema violation the cycle aborts before
any state-store mutation, the lock is released, and the result reports
ok = false with the missing-columns diagnostic; the cumulative store,
however, holds whatever the scoring refresh step left behind — unchanged
when no live PBP was loaded, but already rewritten when it was. -/
theorem refresh_metrics_abort {σ : Type} (season : Int) (ids : List String)
    (stores : Stores σ) (fetch : FetchResult) (run : σ → σ × Option String)
    (now inact : Int)
    (hids : ((ids.map strTrim).filter (fun s => !s.isEmpty)) ≠ [])
    (hsel : _select_games_to_refresh
      ((ids.map strTrim).filter (fun s => !s.isEmpty)) stores.stateStore
        ≠ [])
    (hrun : fetch.anyLoaded = true → (run stores.cumulative).2 = none)
    (hmiss : requiredMetricsCols.filter
      (fun c => !(fetch.metricsCols.contains c)) ≠ []) :
    (refresh_playoff_games season ids stores fetch run now inact).result.ok
        = false ∧
    (refresh_playoff_games season ids stores fetch run now
        inact).result.message
      = "metrics_out missing columns: " ++ String.intercalate ", "
          (requiredMetricsCols.filter
            (fun c => !(fetch.metricsCols.contains c))) ∧
    (refresh_playoff_games season ids stores fetch run now
        inact).stores.stateStore = stores.stateStore ∧
    (refresh_playoff_games season ids stores fetch run now inact).lockTaken
        = true ∧
    (refresh_playoff_games season ids stores fetch run now
        inact).lockReleased = true ∧
    (refresh_playoff_games season ids stores fetch run now
        inact).stores.cumulative
      = (if fetch.anyLoaded then (run stores.cumulative).1
          else stores.cumulative) := by
  unfold refresh_playoff_games
  dsimp only
  rw [if_neg (by simpa using hids), if_neg (by simpa using hsel)]
  by_cases hl : fetch.anyLoaded
  · rw [if_pos hl]
    cases hre : run stores.cumulative with
    | mk cum1 err =>
        cases err with
        | none =>
            dsimp only
            unfold finishCycle
            dsimp only
            rw [if_pos (by simpa using hmiss)]
            refine ⟨rfl, rfl, rfl, rfl, rfl, ?_⟩
            rw [if_pos hl]
        | some e =>
            have := hrun hl
            rw [hre] at this
            simp at this
  · rw [if_neg hl]
    unfold finishCycle
    dsimp only
    rw [if_pos (by simpa using hmiss)]
    refine ⟨rfl, rfl, rfl, rfl, rfl, ?_⟩
    rw [if_neg hl]

/-- C5 (witness): the amended abort behaviour at the counterexample`s
inputs. -/
theorem refresh_metrics_abort_witness :
    ((["g1"].map strTrim).filter (fun s => !s.isEmpty) ≠ []) ∧
    (_select_games_to_refresh ((["g1"].map strTrim).filter
      (fun s => !s.isEmpty)) ([] : List GameState) ≠ []) ∧
    (requiredMetricsCols.filter
      (fun c => !((["game_id"] : List String).contains c)) ≠ []) ∧
    ((refresh_playoff_games 2025 ["g1"]
        (⟨(0 : Nat), [], none⟩ : Stores Nat) ⟨true, ["game_id"], []⟩
        (fun c => (c + 1, none)) 0 3600).result.ok = false ∧
      (refresh_playoff_games 2025 ["g1"]
        (⟨(0 : Nat), [], none⟩ : Stores Nat) ⟨true, ["game_id"], []⟩
        (fun c => (c + 1, none)) 0 3600).stores.stateStore = []) :=
  ⟨by decide, by decide, by decide,
    have h := refresh_metrics_abort 2025 ["g1"]
      (⟨(0 : Nat), [], none⟩ : Stores Nat) ⟨true, ["game_id"], []⟩
      (fun c => (c + 1, none)) 0 3600 (by decide) (by decide)
      (fun _ => rfl) (by decide)
    ⟨h.1, h.2.2.1⟩⟩

/-- C6 (witness): the all-frozen case — lock acquired and released — and
(through the same theorem) the reported short-circuit result. -/
theorem refresh_short_circuit_witness :
    ((((["g1"].map strTrim).filter (fun s => !s.isEmpty)) = [] ∨
      _select_games_to_refresh
        ((["g1"].map strTrim).filter (fun s => !s.isEmpty))
        [⟨2025, "g1", some 0, some 0, some 0, some 5, some 0, some 0, true,
          "final"⟩] = [])) ∧
    ((refresh_playoff_games 2025 ["g1"]
        (⟨(0 : Nat), [⟨2025, "g1", some 0, some 0, some 0, some 5, some 0,
          some 0, true, "final"⟩], none⟩ : Stores Nat)
        ⟨false, [], []⟩ (fun c => (c, none)) 0 3600).result.ok = true ∧
      (refresh_playoff_games 2025 ["g1"]
        (⟨(0 : Nat), [⟨2025, "g1", some 0, some 0, some 0, some 5, some 0,
          some 0, true, "final"⟩], none⟩ : Stores Nat)
        ⟨false, [], []⟩ (fun c => (c, none)) 0 3600).result.eligible_games
          = 0) :=
  ⟨Or.inr (by decide),
    have h := refresh_short_circuit 2025 ["g1"]
      (⟨(0 : Nat), [⟨2025, "g1", some 0, some 0, some 0, some 5, some 0,
        some 0, true, "final"⟩], none⟩ : Stores Nat)
      ⟨false, [], []⟩ (fun c => (c, none)) 0 3600 (Or.inr (by decide))
    ⟨h.1, h.2.1⟩⟩

/-! ### Per-row facts for the exemption, freeze and isolation claims -/

theorem updateExisting_not_loaded (season now inact : Int) (row : GameState)
    (m : MetricRow) :
    ((updateExisting season now inact row m true).1.no_new_pbp_streak.getD 0
        = row.no_new_pbp_streak.getD 0 ∨
      (updateExisting season now inact row m true).1.no_new_pbp_streak.getD 0
        = 0) ∧
    (updateExisting season now inact row m true).1.is_frozen
        = row.is_frozen ∧
    (updateExisting season now inact row m true).1.freeze_reason
        = row.freeze_reason := by
  unfold updateExisting
  dsimp only
  split_ifs <;> simp_all

theorem processOne_not_loaded (season now inact : Int) (sc : Bool)
    (o : Option GameState) (m : MetricRow)
    (hnl : statusNotLoaded (if sc then m.status else "") = true) :
    ((processOne season now inact sc o m).1.no_new_pbp_streak.getD 0
        = streakOf o ∨
      (processOne season now inact sc o m).1.no_new_pbp_streak.getD 0 = 0) ∧
    (processOne season now inact sc o m).1.is_frozen = frozenOf o ∧
    (processOne season now inact sc o m).1.freeze_reason = reasonOf o := by
  cases o with
  | none =>
      have he : processOne season now inact sc none m
          = (freshRow season now m.game_id m.max_play_id, false) := by
        simp [processOne, hnl]
      rw [he]
      exact ⟨Or.inl rfl, rfl, rfl⟩
  | some row =>
      have he : processOne season now inact sc (some row) m
          = updateExisting season now inact row m true := by
        simp [processOne, hnl]
      rw [he]
      exact updateExisting_not_loaded season now inact row m

theorem updateExisting_attempt (season now inact : Int) (row : GameState)
    (m : MetricRow) (nl : Bool) :
    (updateExisting season now inact row m nl).1.last_attempt_at
      = some now := by
  unfold updateExisting
  dsimp only
  split_ifs <;> rfl

theorem processOne_attempt (season now inact : Int) (sc : Bool)
    (o : Option GameState) (m : MetricRow) :
    (processOne season now inact sc o m).1.last_attempt_at = some now := by
  cases o with
  | none =>
      by_cases hnl : statusNotLoaded (if sc then m.status else "") = true
      · have he : processOne season now inact sc none m
            = (freshRow season now m.game_id m.max_play_id, false) := by
          simp [processOne, hnl]
        rw [he]
        rfl
      · have he : processOne season now inact sc none m
            = updateExisting season now inact
                (freshRow season now m.game_id m.max_play_id) m
                (statusNotLoaded (if sc then m.status else "")) := by
          simp [processOne, hnl]
        rw [he, updateExisting_attempt]
  | some row =>
      exact updateExisting_attempt season now inact row m _

/-- Freeze analysis of the common update path for an unfrozen, loaded,
non-final resource: the updated row is frozen exactly when its
post-update streak is at least 2 and the elapsed time since its
(post-update) last advance reaches the threshold; and any such freeze
carries reason `inactive_timeout`. -/
theorem updateExisting_inactive_iff (season now inact : Int)
    (row : GameState) (m : MetricRow) (hunf : row.is_frozen = false)
    (hfin : m.is_final = false) :
    ((updateExisting season now inact row m false).1.is_frozen = true ↔
      (2 ≤ (updateExisting season now inact row m
          false).1.no_new_pbp_streak.getD 0 ∧
        _should_freeze_inactive
          (updateExisting season now inact row m false).1.last_new_pbp_at
          now inact = true)) ∧
    ((updateExisting season now inact row m false).1.is_frozen = true →
      (updateExisting season now inact row m false).1.freeze_reason
        = "inactive_timeout") := by
  unfold updateExisting
  dsimp only
  rw [hfin]
  split_ifs <;> simp_all

/-- When the cycle reaches the state-machine loop (non-empty trimmed
request, non-frozen selection, scoring refresh did not raise, metrics
schema valid), the final state store is the fold of the metrics rows and
the result is ok. -/
theorem refresh_stateStore_of_run {σ : Type} (season : Int)
    (ids : List String) (stores : Stores σ) (fetch : FetchResult)
    (run : σ → σ × Option String) (now inact : Int)
    (hids : ((ids.map strTrim).filter (fun s => !s.isEmpty)) ≠ [])
    (hsel : _select_games_to_refresh
      ((ids.map strTrim).filter (fun s => !s.isEmpty)) stores.stateStore
        ≠ [])
    (hrun : fetch.anyLoaded = true → (run stores.cumulative).2 = none)
    (hmiss : requiredMetricsCols.filter
      (fun c => !(fetch.metricsCols.contains c)) = []) :
    (refresh_playoff_games season ids stores fetch run now
        inact).stores.stateStore
      = (fetch.metricsRows.foldl
          (stepRow season now inact (fetch.metricsCols.contains "status"))
          (stores.stateStore, 0)).1 ∧
    (refresh_playoff_games season ids stores fetch run now inact).result.ok
      = true := by
  unfold refresh_playoff_games
  dsimp only
  rw [if_neg (by simpa using hids), if_neg (by simpa using hsel)]
  by_cases hl : fetch.anyLoaded
  · rw [if_pos hl]
    cases hre : run stores.cumulative with
    | mk cum1 err =>
        cases err with
        | none =>
            dsimp only
            unfold finishCycle
            dsimp only
            rw [if_neg (by rw [hmiss]; simp)]
            exact ⟨rfl, rfl⟩
        | some e =>
            have h0 := hrun hl
            rw [hre] at h0
            simp at h0
  · rw [if_neg hl]
    unfold finishCycle
    dsimp only
    rw [if_neg (by rw [hmiss]; simp)]
    exact ⟨rfl, rfl⟩

/-- C7: pre-start exemption.  In any refresh cycle (whatever branch it
takes), a resource whose metrics record carries a not-loaded status never
has its no-advance streak incremented — the streak is unchanged or reset
to 0 by an advance — and its freeze flag and reason are exactly what they
were before the cycle (a resource with no prior row ends unfrozen with
streak 0).  The fetcher emits one metrics record per id, so the records
carry distinct game ids. -/
theorem not_loaded_exempt {σ : Type} (season : Int) (ids : List String)
    (stores : Stores σ) (fetch : FetchResult) (run : σ → σ × Option String)
    (now inact : Int) (m : MetricRow) (hm : m ∈ fetch.metricsRows)
    (hd : (fetch.metricsRows.map (·.game_id)).Nodup)
    (hscol : fetch.metricsCols.contains "status" = true)
    (hnl : statusNotLoaded m.status = true) :
    (streakOf (lookupLast (refresh_playoff_games season ids stores fetch run
          now inact).stores.stateStore m.game_id)
        = streakOf (lookupLast stores.stateStore m.game_id) ∨
      streakOf (lookupLast (refresh_playoff_games season ids stores fetch run
          now inact).stores.stateStore m.game_id) = 0) ∧
    frozenOf (lookupLast (refresh_playoff_games season ids stores fetch run
        now inact).stores.stateStore m.game_id)
      = frozenOf (lookupLast stores.stateStore m.game_id) ∧
    reasonOf (lookupLast (refresh_playoff_games season ids stores fetch run
        now inact).stores.stateStore m.game_id)
      = reasonOf (lookupLast stores.stateStore m.game_id) := by
  rcases refresh_stateStore_cases season ids stores fetch run now inact with
    hc | hc
  · rw [hc]
    exact ⟨Or.inl rfl, rfl, rfl⟩
  · rw [hc, foldl_stepRow_lookup season now inact _ fetch.metricsRows
      (stores.stateStore, 0) m hm hd]
    have := processOne_not_loaded season now inact
      (fetch.metricsCols.contains "status")
      (lookupLast stores.stateStore m.game_id) m
      (by rw [hscol]; simpa using hnl)
    exact this

/-- C7 (witness): a pre-start resource with a stale stored row and huge
elapsed time is neither penalised nor frozen. -/
theorem not_loaded_exempt_witness :
    ((⟨"g1", none, false, "not_loaded_yet"⟩ : MetricRow)
        ∈ [(⟨"g1", none, false, "not_loaded_yet"⟩ : MetricRow)]) ∧
    (([(⟨"g1", none, false, "not_loaded_yet"⟩ : MetricRow)].map
      (·.game_id)).Nodup) ∧
    ((["game_id", "is_final", "max_play_id", "refreshed_at",
        "status"] : List String).contains "status" = true) ∧
    (statusNotLoaded "not_loaded_yet" = true) ∧
    (frozenOf (lookupLast (refresh_playoff_games 2025 ["g1"]
        (⟨(0 : Nat), [⟨2025, "g1", some 0, some 0, some 0, some 5, some 0,
          some 1, false, ""⟩], none⟩ : Stores Nat)
        ⟨false, ["game_id", "is_final", "max_play_id", "refreshed_at",
          "status"], [⟨"g1", none, false, "not_loaded_yet"⟩]⟩
        (fun c => (c, none)) 10000 3600).stores.stateStore "g1")
      = frozenOf (lookupLast [⟨2025, "g1", some 0, some 0, some 0, some 5,
          some 0, some 1, false, ""⟩] "g1")) :=
  ⟨by decide, by decide, by decide, by decide,
    (not_loaded_exempt 2025 ["g1"]
      (⟨(0 : Nat), [⟨2025, "g1", some 0, some 0, some 0, some 5, some 0,
        some 1, false, ""⟩], none⟩ : Stores Nat)
      ⟨false, ["game_id", "is_final", "max_play_id", "refreshed_at",
        "status"], [⟨"g1", none, false, "not_loaded_yet"⟩]⟩
      (fun c => (c, none)) 10000 3600 ⟨"g1", none, false, "not_loaded_yet"⟩
      (by decide) (by decide) (by decide) (by decide)).2.1⟩

theorem processOne_inactive_iff (season now inact : Int) (sc : Bool)
    (o : Option GameState) (m : MetricRow)
    (hnl : statusNotLoaded (if sc then m.status else "") = false)
    (hfin : m.is_final = false) (hunf : frozenOf o = false) :
    ((processOne season now inact sc o m).1.is_frozen = true ↔
      (2 ≤ (processOne season now inact sc o m).1.no_new_pbp_streak.getD 0 ∧
        _should_freeze_inactive
          (processOne season now inact sc o m).1.last_new_pbp_at now inact
            = true)) ∧
    ((processOne season now inact sc o m).1.is_frozen = true →
      (processOne season now inact sc o m).1.freeze_reason
        = "inactive_timeout") := by
  cases o with
  | none =>
      have he : processOne season now inact sc none m
          = updateExisting season now inact
              (freshRow season now m.game_id m.max_play_id) m false := by
        simp [processOne, hnl]
      rw [he]
      exact updateExisting_inactive_iff season now inact _ m rfl hfin
  | some row =>
      have he : processOne season now inact sc (some row) m
          = updateExisting season now inact row m false := by
        simp [processOne, hnl]
      rw [he]
      exact updateExisting_inactive_iff season now inact row m
        (by simpa [frozenOf] using hunf) hfin

/-- C8: exact inactivity-freeze condition.  In a cycle that reaches the
state loop, an unfrozen, loaded (status not a not-loaded value), non-final
resource ends the cycle frozen if and only if, after the cycle`s counter
update, its no-advance streak is at least 2 and the elapsed time since its
last advance reaches the configured threshold; any such freeze carries
reason `inactive_timeout`.  In particular a streak of 1 never freezes,
whatever the elapsed time. -/
theorem inactivity_freeze_iff {σ : Type} (season : Int) (ids : List String)
    (stores : Stores σ) (fetch : FetchResult) (run : σ → σ × Option String)
    (now inact : Int) (m : MetricRow)
    (hids : ((ids.map strTrim).filter (fun s => !s.isEmpty)) ≠ [])
    (hsel : _select_games_to_refresh
      ((ids.map strTrim).filter (fun s => !s.isEmpty)) stores.stateStore
        ≠ [])
    (hrun : fetch.anyLoaded = true → (run stores.cumulative).2 = none)
    (hmiss : requiredMetricsCols.filter
      (fun c => !(fetch.metricsCols.contains c)) = [])
    (hm : m ∈ fetch.metricsRows)
    (hd : (fetch.metricsRows.map (·.game_id)).Nodup)
    (hscol : fetch.metricsCols.contains "status" = true)
    (hnl : statusNotLoaded m.status = false) (hfin : m.is_final = false)
    (hunf : frozenOf (lookupLast stores.stateStore m.game_id) = false) :
    ∃ r', lookupLast (refresh_playoff_games season ids stores fetch run now
        inact).stores.stateStore m.game_id = some r' ∧
      (r'.is_frozen = true ↔
        (2 ≤ r'.no_new_pbp_streak.getD 0 ∧
          _should_freeze_inactive r'.last_new_pbp_at now inact = true)) ∧
      (r'.is_frozen = true → r'.freeze_reason = "inactive_timeout") := by
  obtain ⟨hst, -⟩ := refresh_stateStore_of_run season ids stores fetch run
    now inact hids hsel hrun hmiss
  rw [hst, foldl_stepRow_lookup season now inact _ fetch.metricsRows
    (stores.stateStore, 0) m hm hd]
  refine ⟨_, rfl, ?_⟩
  exact processOne_inactive_iff season now inact _ _ m
    (by rw [hscol]; simpa using hnl) hfin hunf

/-- C8 (witness): a stale unfrozen row (streak 1, last advance at 0) hits
streak 2 with elapsed 10000 ≥ 3600 and freezes with reason
`inactive_timeout`. -/
theorem inactivity_freeze_iff_witness :
    ((["g1"].map strTrim).filter (fun s => !s.isEmpty) ≠ []) ∧
    (statusNotLoaded "ok" = false) ∧
    (∃ r', lookupLast (refresh_playoff_games 2025 ["g1"]
        (⟨(0 : Nat), [⟨2025, "g1", some 0, some 0, some 0, some 5, some 0,
          some 1, false, ""⟩], none⟩ : Stores Nat)
        ⟨false, ["game_id", "is_final", "max_play_id", "refreshed_at",
          "status"], [⟨"g1", none, false, "ok"⟩]⟩
        (fun c => (c, none)) 10000 3600).stores.stateStore "g1"
          = some r' ∧
      (r'.is_frozen = true ↔
        (2 ≤ r'.no_new_pbp_streak.getD 0 ∧
          _should_freeze_inactive r'.last_new_pbp_at 10000 3600 = true)) ∧
      (r'.is_frozen = true → r'.freeze_reason = "inactive_timeout")) :=
  ⟨by decide, by decide,
    inactivity_freeze_iff 2025 ["g1"]
      (⟨(0 : Nat), [⟨2025, "g1", some 0, some 0, some 0, some 5, some 0,
        some 1, false, ""⟩], none⟩ : Stores Nat)
      ⟨false, ["game_id", "is_final", "max_play_id", "refreshed_at",
        "status"], [⟨"g1", none, false, "ok"⟩]⟩
      (fun c => (c, none)) 10000 3600 ⟨"g1", none, false, "ok"⟩
      (by decide) (by decide) (fun h => by simp at h) (by decide)
      (by decide) (by decide) (by decide) (by decide) (by decide)
      (by decide)⟩

/-- C9 (counterexample): a resource whose fetch errors *can* be frozen in
that same cycle.  With a stored streak of 1 and a long-stale last advance,
the error cycle (status "error", `max_play_id` none, `is_final` false, as
the fetcher emits on failure) increments the streak to 2 and freezes the
resource with reason `inactive_timeout`, contradicting "never transitioned
to frozen by that cycle". -/
theorem error_freeze_counterexample :
    frozenOf (lookupLast
      ([⟨2025, "g1", some 0, some 0, some 0, some 5, some 0, some 1, false,
        ""⟩] : List GameState) "g1") = false ∧
    (refresh_playoff_games 2025 ["g1"]
      (⟨(0 : Nat), [⟨2025, "g1", some 0, some 0, some 0, some 5, some 0,
        some 1, false, ""⟩], none⟩ : Stores Nat)
      ⟨false, ["game_id", "is_final", "max_play_id", "refreshed_at",
        "status"], [⟨"g1", none, false, "error"⟩]⟩
      (fun c => (c, none)) 10000 3600).stores.stateStore
      = [⟨2025, "g1", some 0, some 10000, some 10000, some 5, some 0, some 2,
        true, "inactive_timeout"⟩] :=
  ⟨by decide, by decide⟩

/-- C9 (amended): a per-resource fetch failure is isolated — the cycle
still completes with ok = true and every requested id`s state row is
stamped with the attempt — and an errored resource is never frozen with
reason `final` in that cycle (its metrics carry `is_final = false`); it
can, however, still be frozen for inactivity (`inactive_timeout`) because
the error increments the no-advance streak. -/
theorem error_isolated {σ : Type} (season : Int) (ids : List String)
    (stores : Stores σ) (fetch : FetchResult) (run : σ → σ × Option String)
    (now inact : Int) (m : MetricRow)
    (hids : ((ids.map strTrim).filter (fun s => !s.isEmpty)) ≠ [])
    (hsel : _select_games_to_refresh
      ((ids.map strTrim).filter (fun s => !s.isEmpty)) stores.stateStore
        ≠ [])
    (hrun : fetch.anyLoaded = true → (run stores.cumulative).2 = none)
    (hmiss : requiredMetricsCols.filter
      (fun c => !(fetch.metricsCols.contains c)) = [])
    (hm : m ∈ fetch.metricsRows)
    (hd : (fetch.metricsRows.map (·.game_id)).Nodup)
    (hscol : fetch.metricsCols.contains "status" = true)
    (herr : strLower (strTrim m.status) = "error")
    (hfin : m.is_final = false)
    (hunf : frozenOf (lookupLast stores.stateStore m.game_id) = false) :
    (refresh_playoff_games season ids stores fetch run now inact).result.ok
        = true ∧
    (∀ m' ∈ fetch.metricsRows, ∃ row',
      lookupLast (refresh_playoff_games season ids stores fetch run now
        inact).stores.stateStore m'.game_id = some row' ∧
      row'.last_attempt_at = some now) ∧
    (∀ r', lookupLast (refresh_playoff_games season ids stores fetch run now
        inact).stores.stateStore m.game_id = some r' →
      r'.is_frozen = true → r'.freeze_reason = "inactive_timeout") := by
  obtain ⟨hst, hok⟩ := refresh_stateStore_of_run season ids stores fetch run
    now inact hids hsel hrun hmiss
  have hnl : statusNotLoaded m.status = false := by
    simp [statusNotLoaded, herr]
  refine ⟨hok, ?_, ?_⟩
  · intro m' hm'
    rw [hst, foldl_stepRow_lookup season now inact _ fetch.metricsRows
      (stores.stateStore, 0) m' hm' hd]
    exact ⟨_, rfl, processOne_attempt season now inact _ _ m'⟩
  · intro r' hr' hfz
    rw [hst, foldl_stepRow_lookup season now inact _ fetch.metricsRows
      (stores.stateStore, 0) m hm hd, Option.some.injEq] at hr'
    rw [← hr'] at hfz ⊢
    exact (processOne_inactive_iff season now inact _ _ m
      (by rw [hscol]; simpa using hnl) hfin hunf).2 hfz

/-- C9 (witness): the amended isolation at the counterexample`s inputs. -/
theorem error_isolated_witness :
    (strLower (strTrim "error") = "error") ∧
    ((refresh_playoff_games 2025 ["g1"]
      (⟨(0 : Nat), [⟨2025, "g1", some 0, some 0, some 0, some 5, some 0,
        some 1, false, ""⟩], none⟩ : Stores Nat)
      ⟨false, ["game_id", "is_final", "max_play_id", "refreshed_at",
        "status"], [⟨"g1", none, false, "error"⟩]⟩
      (fun c => (c, none)) 10000 3600).result.ok = true) :=
  ⟨by decide,
    (error_isolated 2025 ["g1"]
      (⟨(0 : Nat), [⟨2025, "g1", some 0, some 0, some 0, some 5, some 0,
        some 1, false, ""⟩], none⟩ : Stores Nat)
      ⟨false, ["game_id", "is_final", "max_play_id", "refreshed_at",
        "status"], [⟨"g1", none, false, "error"⟩]⟩
      (fun c => (c, none)) 10000 3600 ⟨"g1", none, false, "error"⟩
      (by decide) (by decide) (fun h => by simp at h) (by decide)
      (by decide) (by decide) (by decide) (by decide) (by decide)
      (by decide)).1⟩

/-- C10: double attribution on pass touchdowns.  For a scoring play that
is exactly an offensive pass touchdown (its other scoring flags false),
the builder emits exactly two events when both participant ids are
present — +4 to the possession team for the passer under the fixed QB
category, +6 to the possession team for the receiver under the roster
lookup — and dropping exactly one participant id drops only the matching
event.  The passer`s category is "QB" whatever the roster says; the
receiver`s category is the (normalised) roster bucket, the catch-all when
the roster has no row. -/
theorem pass_td_double_attribution (lookup : String → Option String)
    (p : Play) (h1 : p.is_td_off = true) (h2 : p.pass_touchdown = true)
    (h3 : p.rush_touchdown = false) (h4 : p.is_fg = false)
    (h5 : p.is_xp = false) (h6 : p.is_safety = false)
    (h7 : p.is_td_def = false) (h8 : p.is_2pt = false)
    (h9 : p.is_def_two_pt_col = false)
    (h10 : p.defensive_two_point_conv ≠ 1) :
    (p.passer_player_id ≠ "" → p.receiver_player_id ≠ "" →
      buildEventsForPlay defaultRules p =
        [⟨p.posteam, p.passer_player_id, 4, some "QB", "Pass TD (QB)"⟩,
          ⟨p.posteam, p.receiver_player_id, 6, none, "Pass TD (receiver)"⟩]) ∧
    (p.passer_player_id = "" → p.receiver_player_id ≠ "" →
      buildEventsForPlay defaultRules p =
        [⟨p.posteam, p.receiver_player_id, 6, none, "Pass TD (receiver)"⟩]) ∧
    (p.passer_player_id ≠ "" → p.receiver_player_id = "" →
      buildEventsForPlay defaultRules p =
        [⟨p.posteam, p.passer_player_id, 4, some "QB", "Pass TD (QB)"⟩]) ∧
    (∀ reason, resolvePosition lookup
        ⟨p.posteam, p.passer_player_id, 4, some "QB", reason⟩ = "QB") ∧
    (lookup p.receiver_player_id = none →
      resolvePosition lookup
        ⟨p.posteam, p.receiver_player_id, 6, none, "Pass TD (receiver)"⟩
          = "OTH") ∧
    (∀ b, lookup p.receiver_player_id = some b →
      resolvePosition lookup
        ⟨p.posteam, p.receiver_player_id, 6, none, "Pass TD (receiver)"⟩
          = normalize_position (some (normalize_position (some b)))) := by
  have h10b : (p.defensive_two_point_conv == 1) = false := by
    simpa using h10
  refine ⟨?_, ?_, ?_, ?_, ?_, ?_⟩
  · intro hp hr
    simp [buildEventsForPlay, h1, h2, h3, h4, h5, h6, h7, h8, h9, h10b,
      hp, hr, defaultRules]
  · intro hp hr
    simp [buildEventsForPlay, h1, h2, h3, h4, h5, h6, h7, h8, h9, h10b,
      hp, hr, defaultRules]
  · intro hp hr
    simp [buildEventsForPlay, h1, h2, h3, h4, h5, h6, h7, h8, h9, h10b,
      hp, hr, defaultRules]
  · intro reason
    show normalize_position (some "QB") = "QB"
    decide
  · intro hnone
    simp [resolvePosition, hnone]
    rfl
  · intro b hb
    simp [resolvePosition, hb]

/-- C10 (witness): a concrete pass-touchdown play with both ids present
and a roster mapping the receiver to "wr". -/
theorem pass_td_double_attribution_witness :
    ((⟨"KC", "BUF", "pass", "P1", "R1", "", "", false, false, false, true,
        false, true, false, false, false, 0⟩ : Play).is_td_off = true) ∧
    ((⟨"KC", "BUF", "pass", "P1", "R1", "", "", false, false, false, true,
        false, true, false, false, false, 0⟩ : Play).defensive_two_point_conv
        ≠ 1) ∧
    (buildEventsForPlay defaultRules
        ⟨"KC", "BUF", "pass", "P1", "R1", "", "", false, false, false, true,
          false, true, false, false, false, 0⟩ =
      [⟨"KC", "P1", 4, some "QB", "Pass TD (QB)"⟩,
        ⟨"KC", "R1", 6, none, "Pass TD (receiver)"⟩]) :=
  ⟨by decide, by decide,
    (pass_td_double_attribution
      (fun pid => if pid == "R1" then some "wr" else none)
      ⟨"KC", "BUF", "pass", "P1", "R1", "", "", false, false, false, true,
        false, true, false, false, false, 0⟩
      (by decide) (by decide) (by decide) (by decide) (by decide)
      (by decide) (by decide) (by decide) (by decide) (by decide)).1
      (by decide) (by decide)⟩

end BBB
